import Mathlib

/-!
Shallow embedding of the SEVIR skill-score evaluator
(`examples/earthformer/sevir/helps.py`) and of the tensorized FNO
architecture (`ppsci/arch/tfnonet.py`) from the PaddleScience fork,
together with proofs about them.

Modelling conventions:
* a paddle float value is `PFloat`: either NaN or an exact rational;
* a paddle tensor is a shape (list of dimension sizes) together with a
  total function from multi-indices to values; only the values at valid
  indices are meaningful;
* python exceptions are the explicit error type `PyErr`;
* float arithmetic is modelled exactly (over `ℚ`, and over `ℝ` where the
  source applies a logarithm).
-/

/-- A paddle scalar: NaN or an exact numeric value. -/
inductive PFloat where
  | nan : PFloat
  | val : ℚ → PFloat
deriving DecidableEq

/-- Pointwise `paddle.isnan`. -/
def PFloat.isnan : PFloat → Bool
  | .nan => true
  | .val _ => false

/-- IEEE-style `>=` against a numeric threshold: any comparison with NaN
is false. -/
def PFloat.ge (x : PFloat) (T : ℚ) : Bool :=
  match x with
  | .nan => false
  | .val q => decide (T ≤ q)

/-- A paddle tensor with entries in `α`: a shape and the entry at each
multi-index. -/
structure PTensor (α : Type) where
  shape : List ℕ
  data : List ℕ → α

/-- Pointwise unary op (shape preserved). -/
def PTensor.map {α β : Type} (x : PTensor α) (f : α → β) : PTensor β :=
  ⟨x.shape, fun idx => f (x.data idx)⟩

/-- Pointwise binary op on same-shape tensors (shape of the first). -/
def PTensor.zipWith {α β γ : Type} (x : PTensor α) (y : PTensor β)
    (f : α → β → γ) : PTensor γ :=
  ⟨x.shape, fun idx => f (x.data idx) (y.data idx)⟩

/-- Boolean masked assignment `x[mask] = v` of a scalar. -/
def PTensor.maskSet (x : PTensor ℚ) (mask : PTensor Bool) (v : ℚ) :
    PTensor ℚ :=
  ⟨x.shape, fun idx => if mask.data idx then v else x.data idx⟩

/-- The cast `astype('float32')` on a boolean tensor: True ↦ 1.0, False ↦ 0.0. -/
def boolToFloat (b : Bool) : ℚ := if b then 1 else 0

/-- All valid multi-indices of a shape, in row-major enumeration order. -/
def shapeIndices : List ℕ → List (List ℕ)
  | [] => [[]]
  | n :: s => (List.range n).flatMap (fun i => (shapeIndices s).map (i :: ·))

/-- The function `_threshold(target, pred, T)` from `helps.py`:
`t = (target >= T).astype('float32')`, `p = (pred >= T).astype('float32')`,
then both are zeroed wherever either input is NaN. -/
def _threshold (target pred : PTensor PFloat) (T : ℚ) :
    PTensor ℚ × PTensor ℚ :=
  let t := (target.map (fun v => v.ge T)).map boolToFloat
  let p := (pred.map (fun v => v.ge T)).map boolToFloat
  let is_nan := (target.map PFloat.isnan).zipWith (pred.map PFloat.isnan) or
  let t := t.maskSet is_nan 0
  let p := p.maskSet is_nan 0
  (t, p)

/-- Merge a reduced-axes index `ridx` (coordinates for the axes listed in
`axes`, in increasing axis order) with a kept-axes index `kidx` into a
full multi-index, walking axes `j, j+1, ...` for `n` steps. -/
def mergeIdx (axes : List ℕ) : ℕ → ℕ → List ℕ → List ℕ → List ℕ
  | 0, _, _, _ => []
  | n + 1, j, ridx, kidx =>
    if j ∈ axes then ridx.headD 0 :: mergeIdx axes n (j + 1) ridx.tail kidx
    else kidx.headD 0 :: mergeIdx axes n (j + 1) ridx kidx.tail

/-- The reduction `paddle.sum(x, axis=axes)` (with `keepdim=False`): the result is
indexed by the kept axes in their original order, and each entry sums the
data over all coordinates of the reduced axes. -/
def PTensor.sumAxes (x : PTensor ℚ) (axes : List ℕ) : PTensor ℚ :=
  let n := x.shape.length
  let redShape :=
    ((List.range n).filter (· ∈ axes)).map (fun j => x.shape.getD j 0)
  let keptShape :=
    ((List.range n).filter (· ∉ axes)).map (fun j => x.shape.getD j 0)
  ⟨keptShape, fun kidx =>
    ((shapeIndices redShape).map
      (fun ridx => x.data (mergeIdx axes n 0 ridx kidx))).sum⟩

/-- The cast `astype('int32')` on a float tensor: conversion truncates toward
zero.  The counts this is applied to are small nonnegative integers, so
no wrap-around is modelled. -/
def toInt32 (q : ℚ) : ℚ := ((if 0 ≤ q then ⌊q⌋ else ⌈q⌉ : ℤ) : ℚ)

/-- Pointwise `astype('int32')`. -/
def PTensor.astypeInt32 (x : PTensor ℚ) : PTensor ℚ := x.map toInt32

/-- The constructor `paddle.zeros(shape)`. -/
def paddleZeros (shape : List ℕ) : PTensor ℚ := ⟨shape, fun _ => 0⟩

/-- A python exception, by kind. -/
inductive PyErr where
  | notImplementedError
  | assertionError
  | valueError
  | keyError
  | zeroDivisionError
  | indexError
deriving DecidableEq

/-- The state and configuration of a `SEVIRSkillScore` evaluator.
The field `process_data_dict_back` stands for the external
`SEVIRDataset.process_data_dict_back` back-normalization utility invoked
by `preprocess`.  Modelled from the spec: the spec declares that utility
out of scope ("the dataset/back-normalization utility"), so it is kept
abstract, as an arbitrary tensor transformation carried by the object. -/
structure SEVIRSkillScore where
  layout : String
  preprocess_type : String
  threshold_list : List ℤ
  metrics_list : List String
  eps : ℚ
  mode : String
  seq_len : Option ℕ
  keep_seq_len_dim : Bool
  hits : PTensor ℚ
  misses : PTensor ℚ
  fas : PTensor ℚ
  process_data_dict_back : PTensor PFloat → PTensor PFloat

/-- The constructor `SEVIRSkillScore.__init__`.  The `state_shape` local of the source is
computed but never used: the running-count tensors `hits`, `misses`,
`fas` are always created by `paddle.zeros(shape=[len(threshold_list)])`.
Returns the constructed object, or the exception the constructor
raises (`NotImplementedError` for an unsupported mode, the `seq_len`
assertion failure for modes "1"/"2" without an integer `seq_len`). -/
def SEVIRSkillScore.init (layout : String) (mode : String)
    (seq_len : Option ℕ) (preprocess_type : String)
    (threshold_list : List ℤ) (metrics_list : List String) (eps : ℚ)
    (process_back : PTensor PFloat → PTensor PFloat) :
    Except PyErr SEVIRSkillScore :=
  let hits := paddleZeros [threshold_list.length]
  let misses := paddleZeros [threshold_list.length]
  let fas := paddleZeros [threshold_list.length]
  if mode = "0" then
    .ok { layout, preprocess_type, threshold_list, metrics_list, eps, mode,
          seq_len, keep_seq_len_dim := false, hits, misses, fas,
          process_data_dict_back := process_back }
  else if mode = "1" ∨ mode = "2" then
    match seq_len with
    | some _ =>
        .ok { layout, preprocess_type, threshold_list, metrics_list, eps,
              mode, seq_len, keep_seq_len_dim := true, hits, misses, fas,
              process_data_dict_back := process_back }
    | none => .error .assertionError
  else .error .notImplementedError

/-- The `hits_misses_fas_reduce_dims` property: all axes of the layout;
when the sequence dimension is kept, `pop` the axis at
`layout.find('T')`.  (Python's `str.find` returns `-1` when `'T'` is
absent and `list.pop(-1)` then removes the last element.) -/
def SEVIRSkillScore.hits_misses_fas_reduce_dims (s : SEVIRSkillScore) :
    List ℕ :=
  let dims := List.range s.layout.toList.length
  if s.keep_seq_len_dim then
    if 'T' ∈ s.layout.toList then dims.eraseIdx (s.layout.toList.indexOf 'T')
    else dims.dropLast
  else dims

/-- The method `calc_seq_hits_misses_fas`: binarize via `_threshold`, then sum
`t*p`, `t*(1-p)` and `(1-t)*p` over the reduce axes and cast the sums to
int32. -/
def SEVIRSkillScore.calc_seq_hits_misses_fas (s : SEVIRSkillScore)
    (pred target : PTensor PFloat) (threshold : ℤ) :
    PTensor ℚ × PTensor ℚ × PTensor ℚ :=
  let tp := _threshold target pred (threshold : ℚ)
  let t := tp.1
  let p := tp.2
  let dims := s.hits_misses_fas_reduce_dims
  let hits := ((t.zipWith p (· * ·)).sumAxes dims).astypeInt32
  let misses := ((t.zipWith (p.map (1 - ·)) (· * ·)).sumAxes dims).astypeInt32
  let fas := (((t.map (1 - ·)).zipWith p (· * ·)).sumAxes dims).astypeInt32
  (hits, misses, fas)

/-- The method `preprocess`: for `preprocess_type == "sevir"`, apply the external
back-normalization to both tensors; any other type raises
`NotImplementedError`. -/
def SEVIRSkillScore.preprocess (s : SEVIRSkillScore)
    (pred target : PTensor PFloat) :
    Except PyErr (PTensor PFloat × PTensor PFloat) :=
  if s.preprocess_type = "sevir" then
    .ok (s.process_data_dict_back pred, s.process_data_dict_back target)
  else .error .notImplementedError

/-- The update `state[i] += delta` where `state` is a 1-D running-count tensor and
`delta` a tensor returned by `calc_seq_hits_misses_fas`: the assignment
succeeds when `delta` is 0-dim, or of shape `[1]` (which numpy-style
item assignment broadcasts into the scalar slot); any larger shape
cannot be broadcast into the scalar slot `state[i]` and raises a shape
error. -/
def setitemAdd (state : PTensor ℚ) (i : ℕ) (delta : PTensor ℚ) :
    Except PyErr (PTensor ℚ) :=
  match delta.shape with
  | [] => .ok ⟨state.shape, fun idx =>
      if idx = [i] then state.data [i] + delta.data [] else state.data idx⟩
  | [1] => .ok ⟨state.shape, fun idx =>
      if idx = [i] then state.data [i] + delta.data [0] else state.data idx⟩
  | _ => .error .valueError

/-- The first half of `compute`: the loop
`for i, threshold in enumerate(self.threshold_list)` that adds the batch
counts of each threshold into the running state. -/
def SEVIRSkillScore.accumulate (s : SEVIRSkillScore)
    (pred target : PTensor PFloat) : Except PyErr SEVIRSkillScore :=
  s.threshold_list.enum.foldlM
    (fun st (it : ℕ × ℤ) => do
      let hmf := st.calc_seq_hits_misses_fas pred target it.2
      let h ← setitemAdd st.hits it.1 hmf.1
      let m ← setitemAdd st.misses it.1 hmf.2.1
      let f ← setitemAdd st.fas it.1 hmf.2.2
      return { st with hits := h, misses := m, fas := f })
    s

/-- The metric `SEVIRSkillScore.pod`, as a function of the scalar entries (the
paddle arithmetic in the metric bodies is elementwise). -/
noncomputable def SEVIRSkillScore.pod (hits misses fas eps : ℝ) : ℝ :=
  hits / (hits + misses + eps)

/-- The metric `SEVIRSkillScore.sucr`. -/
noncomputable def SEVIRSkillScore.sucr (hits misses fas eps : ℝ) : ℝ :=
  hits / (hits + fas + eps)

/-- The metric `SEVIRSkillScore.csi`. -/
noncomputable def SEVIRSkillScore.csi (hits misses fas eps : ℝ) : ℝ :=
  hits / (hits + misses + fas + eps)

/-- The metric `SEVIRSkillScore.bias`:
`bias = (hits + fas) / (hits + misses + eps)` followed by
`logbias = paddle.pow(bias / paddle.log(paddle.to_tensor(2.0)), 2.0)`. -/
noncomputable def SEVIRSkillScore.bias (hits misses fas eps : ℝ) : ℝ :=
  let bias := (hits + fas) / (hits + misses + eps)
  let logbias := (bias / Real.log 2) ^ 2
  logbias

/-- The `metrics_dict` literal of `compute`; a name outside the four
keys makes the subscript raise `KeyError`. -/
noncomputable def metricsDict (name : String) :
    Option (ℝ → ℝ → ℝ → ℝ → ℝ) :=
  if name = "pod" then some SEVIRSkillScore.pod
  else if name = "csi" then some SEVIRSkillScore.csi
  else if name = "sucr" then some SEVIRSkillScore.sucr
  else if name = "bias" then some SEVIRSkillScore.bias
  else none

/-- The application `metrics_dict[metrics](self.hits, self.misses, self.fas, self.eps)`:
elementwise application of a metric to the running-count tensors, with
the python float `eps` broadcast. -/
noncomputable def metricScores (f : ℝ → ℝ → ℝ → ℝ → ℝ)
    (hits misses fas : PTensor ℚ) (eps : ℚ) : PTensor ℝ :=
  ⟨hits.shape, fun idx =>
    f (hits.data idx) (misses.data idx) (fas.data idx) (eps : ℝ)⟩

/-- A value stored in the returned score mapping: a python float or a
numpy array. -/
inductive MetricVal where
  | num : ℝ → MetricVal
  | arr : PTensor ℝ → MetricVal

/-- A key of the returned mapping: a configured threshold, or the
`"avg"` entry. -/
inductive RetKey where
  | thr : ℤ → RetKey
  | avg : RetKey
deriving DecidableEq

/-- The nested mapping `compute` returns, as an association list. -/
abbrev SEVIRRet := List (RetKey × List (String × MetricVal))

/-- Numpy 0-dim slicing `scores[i]` of a 1-D array (more generally,
indexing the leading axis). -/
def PTensor.sliceAt (x : PTensor ℝ) (i : ℕ) : PTensor ℝ :=
  ⟨x.shape.tail, fun idx => x.data (i :: idx)⟩

/-- The constructor `np.zeros((L,))`. -/
def npZeros (L : ℕ) : PTensor ℝ := ⟨[L], fun _ => 0⟩

/-- The mean `np.mean` of an array: the sum of all entries divided by the number
of entries. -/
noncomputable def PTensor.npMean (x : PTensor ℝ) : ℝ :=
  ((shapeIndices x.shape).map x.data).sum / ((shapeIndices x.shape).length : ℝ)

/-- One column of the score section of `compute`: for one metric name,
the per-threshold stored values (in threshold order) and the stored
`"avg"` value, or the exception that the iteration raises
(`KeyError` for an unknown metric; `NotImplementedError` for an
unsupported mode reaching the aggregation branches; `ZeroDivisionError`
for `score_avg /= len(threshold_list)` on an empty threshold list when
`score_avg` is still the int `0`).  In the `keep_seq_len_dim` branches
the running-count state is 1-D (see `SEVIRSkillScore.init`), so
`scores[i]` is a 0-dim array and `score_avg += score` broadcasts its
single entry across `np.zeros((seq_len,))`. -/
noncomputable def SEVIRSkillScore.metricScoreColumn (s : SEVIRSkillScore)
    (m : String) : Except PyErr (List MetricVal × MetricVal) :=
  match metricsDict m with
  | none => .error .keyError
  | some f =>
    let scores := metricScores f s.hits s.misses s.fas s.eps
    let n := s.threshold_list.length
    if s.keep_seq_len_dim then
      match s.seq_len with
      | none => .error .valueError
      | some L =>
        if s.mode = "0" ∨ s.mode = "1" then
          let score_avg := (List.range n).foldl
            (fun (a : PTensor ℝ) i => a.map (· + (scores.sliceAt i).data []))
            (npZeros L)
          let score_avg := score_avg.map (· / (n : ℝ))
          .ok ((List.range n).map (fun i => .arr (scores.sliceAt i)),
               .arr score_avg)
        else if s.mode = "2" then
          let score_avg := (List.range n).foldl
            (fun (a : PTensor ℝ) i => a.map (· + (scores.sliceAt i).data []))
            (npZeros L)
          let score_avg := score_avg.map (· / (n : ℝ))
          .ok ((List.range n).map (fun i => .num ((scores.sliceAt i).npMean)),
               .num score_avg.npMean)
        else .error .notImplementedError
    else
      if n = 0 then .error .zeroDivisionError
      else if s.mode = "0" ∨ s.mode = "1" ∨ s.mode = "2" then
        let score_avg := ((List.range n).foldl
          (fun (a : ℝ) i => a + scores.data [i]) 0) / (n : ℝ)
        .ok ((List.range n).map (fun i => .num (scores.data [i])),
             .num score_avg)
      else .error .notImplementedError

/-- The score section of `compute`: iterate over `metrics_list`, filling
for every metric the per-threshold entries and the `"avg"` entry of the
returned mapping (built here directly in its final association-list
form: one entry per configured threshold, in order, then `"avg"`). -/
noncomputable def SEVIRSkillScore.computeScores (s : SEVIRSkillScore) :
    Except PyErr SEVIRRet := do
  let cols ← s.metrics_list.mapM (fun m => do
    let c ← s.metricScoreColumn m
    return (m, c))
  return (s.threshold_list.enum.map (fun it =>
            (RetKey.thr it.2,
             cols.map (fun mc => (mc.1, mc.2.1.getD it.1 (MetricVal.num 0)))))
          ++ [(RetKey.avg, cols.map (fun mc => (mc.1, mc.2.2)))])

/-- The method `SEVIRSkillScore.compute`: preprocess both tensors, accumulate the
per-threshold batch counts into the running state, then compute the
score mapping from the updated state.  Returns the updated state
together with the returned mapping, or the exception raised. -/
noncomputable def SEVIRSkillScore.compute (s : SEVIRSkillScore)
    (pred target : PTensor PFloat) :
    Except PyErr (SEVIRSkillScore × SEVIRRet) := do
  let pt ← s.preprocess pred target
  let s2 ← s.accumulate pt.1 pt.2
  let ret ← s2.computeScores
  return (s2, ret)

/-- The optional domain-padding module (`fno_block.DomainPadding`),
kept abstract: a `pad` and an `unpad` transformation.  Modelled from the
spec: `fno_block` is not under the given sources; the spec only says the
Fourier blocks come "with optional domain padding". -/
structure DomainPadding (T : Type) where
  pad : T → T
  unpad : T → T

/-- The configuration and submodules of an `FNONet`
(`ppsci/arch/tfnonet.py`) that its `forward` method uses.  The
submodules `lifting`, `fno_blocks`, `projection` and the inherited
`concat_to_tensor` live in `fno_block.py` / `base.py`, outside the given
sources, and are kept abstract as functions on a tensor type `T`. -/
structure FNONet (T : Type) where
  input_keys : List String
  output_keys : List String
  n_layers : ℕ
  lifting : T → T
  projection : T → T
  domain_padding : Option (DomainPadding T)
  fno_blocks : T → ℕ → T
  concat_to_tensor : List (String × T) → List String → T

/-- The method `FNONet.forward`: concatenate the inputs, apply the lifting block,
pad the domain when padding is configured, run the `n_layers` Fourier
blocks in index order, unpad when padding is configured, apply the
projection block, and return the dictionary `{output_keys[0]: out}`
(an empty `output_keys` would make the subscript raise). -/
def FNONet.forward {T : Type} (m : FNONet T) (xd : List (String × T)) :
    Except PyErr (List (String × T)) :=
  let x := m.concat_to_tensor xd m.input_keys
  let x := m.lifting x
  let x := match m.domain_padding with
    | some dp => dp.pad x
    | none => x
  let x := (List.range m.n_layers).foldl
    (fun a index => m.fno_blocks a index) x
  let x := match m.domain_padding with
    | some dp => dp.unpad x
    | none => x
  let out := m.projection x
  match m.output_keys with
  | [] => .error .indexError
  | k :: _ => .ok [(k, out)]

/-- Sequential application of the Fourier blocks `0, 1, ..., n-1`, in
order (the specification-level reading of the layer loop). -/
def applyBlocksUpTo {T : Type} (f : T → ℕ → T) (x : T) : ℕ → T
  | 0 => x
  | n + 1 => f (applyBlocksUpTo f x n) n

/-- C3 — For equal-shape target/prediction tensors and any threshold `T`,
`_threshold` returns indicator tensors of the same shape that are `1`
exactly where the corresponding input value is `≥ T` and `0` otherwise,
except that wherever either input is NaN both indicators are `0`. -/
theorem threshold_indicator_spec (target pred : PTensor PFloat) (T : ℚ)
    (hsh : pred.shape = target.shape) (idx : List ℕ) :
    (_threshold target pred T).1.shape = target.shape ∧
    (_threshold target pred T).2.shape = target.shape ∧
    (((target.data idx).isnan = false ∧ (pred.data idx).isnan = false) →
      (_threshold target pred T).1.data idx
          = (if (target.data idx).ge T then 1 else 0) ∧
      (_threshold target pred T).2.data idx
          = (if (pred.data idx).ge T then 1 else 0)) ∧
    (((target.data idx).isnan = true ∨ (pred.data idx).isnan = true) →
      (_threshold target pred T).1.data idx = 0 ∧
      (_threshold target pred T).2.data idx = 0) := by
  refine ⟨rfl, hsh, ?_, ?_⟩
  · rintro ⟨h1, h2⟩
    simp [_threshold, PTensor.map, PTensor.zipWith, PTensor.maskSet,
      boolToFloat, h1, h2]
  · rintro (h | h) <;>
      simp [_threshold, PTensor.map, PTensor.zipWith, PTensor.maskSet, h]

/-- Witness for C3 at a concrete input: a 2-element tensor containing a
NaN in the prediction. -/
theorem threshold_indicator_spec_witness :
    let target : PTensor PFloat := ⟨[2], fun idx => .val (if idx = [0] then 5 else 1)⟩
    let pred : PTensor PFloat := ⟨[2], fun idx => if idx = [0] then .val 3 else .nan⟩
    (_threshold target pred 3).1.data [0] = (if (target.data [0]).ge 3 then 1 else 0) ∧
    (_threshold target pred 3).1.data [1] = 0 ∧
    (_threshold target pred 3).2.data [1] = 0 := by
  intro target pred
  have h := threshold_indicator_spec target pred 3 rfl [0]
  have h1 := threshold_indicator_spec target pred 3 rfl [1]
  refine ⟨(h.2.2.1 (by constructor <;> rfl)).1, ?_, ?_⟩
  · exact (h1.2.2.2 (Or.inr rfl)).1
  · exact (h1.2.2.2 (Or.inr rfl)).2

/-- The layer loop of `forward` applies the blocks sequentially in index
order. -/
theorem foldl_range_eq_applyBlocksUpTo {T : Type} (f : T → ℕ → T)
    (x : T) (n : ℕ) :
    (List.range n).foldl (fun a index => f a index) x
      = applyBlocksUpTo f x n := by
  induction n with
  | zero => rfl
  | succ n ih =>
      rw [List.range_succ, List.foldl_append, ih]
      rfl

/-- C9 — `FNONet.forward` is the composition: lifting of the
concatenated input, then padding only when domain padding is configured,
then the `n_layers` Fourier blocks in order, then unpadding only when
domain padding is configured, then projection; the returned dictionary
has the first output key as its single key. -/
theorem fnonet_forward_spec {T : Type} (m : FNONet T)
    (xd : List (String × T)) (k : String) (ks : List String)
    (hk : m.output_keys = k :: ks) :
    m.forward xd = .ok [(k,
      m.projection
        ((match m.domain_padding with
          | some dp => dp.unpad
          | none => id)
          (applyBlocksUpTo m.fno_blocks
            ((match m.domain_padding with
              | some dp => dp.pad
              | none => id)
              (m.lifting (m.concat_to_tensor xd m.input_keys)))
            m.n_layers)))] := by
  cases hdp : m.domain_padding <;>
    simp [FNONet.forward, hk, hdp, foldl_range_eq_applyBlocksUpTo]

/-- Witness for C9 on a concrete two-layer net over `ℕ` with domain
padding configured. -/
theorem fnonet_forward_spec_witness :
    let m : FNONet ℕ :=
      { input_keys := ["u"], output_keys := ["out"], n_layers := 3,
        lifting := (· + 1), projection := (· * 10),
        domain_padding := some ⟨(· + 2), (· + 3)⟩,
        fno_blocks := fun a index => a + index,
        concat_to_tensor := fun xd _ => xd.length }
    m.forward [("u", 5)] = .ok [("out", 100)] := by
  intro m
  rw [fnonet_forward_spec m [("u", 5)] "out" [] rfl]
  rfl

/-- C5 — the POD, SUCR and CSI metric functions compute exactly
`hits/(hits+misses+eps)`, `hits/(hits+fas+eps)` and
`hits/(hits+misses+fas+eps)`. -/
theorem pod_sucr_csi_formulas (hits misses fas eps : ℝ) :
    SEVIRSkillScore.pod hits misses fas eps
        = hits / (hits + misses + eps) ∧
    SEVIRSkillScore.sucr hits misses fas eps
        = hits / (hits + fas + eps) ∧
    SEVIRSkillScore.csi hits misses fas eps
        = hits / (hits + misses + fas + eps) :=
  ⟨rfl, rfl, rfl⟩

/-- C2 counterexample — at `hits = 1`, `misses = 0`, `fas = 1`,
`eps = 1` the code's bias metric returns `(1 / log 2)²`, which is not
the claimed `(log(bias) / log 2)²` (here `bias = (1+1)/(1+0+1) = 1`,
so the claimed value is `0`). -/
theorem bias_not_log_squared :
    SEVIRSkillScore.bias 1 0 1 1
      ≠ (Real.log ((1 + 1) / (1 + 0 + 1)) / Real.log 2) ^ 2 := by
  have h2 : (0 : ℝ) < Real.log 2 := Real.log_pos (by norm_num)
  have hb : SEVIRSkillScore.bias 1 0 1 1 = (1 / Real.log 2) ^ 2 := by
    unfold SEVIRSkillScore.bias
    norm_num
  have hr : ((Real.log ((1 + 1) / (1 + 0 + 1)) / Real.log 2) ^ 2 : ℝ)
      = 0 := by
    norm_num [Real.log_one]
  rw [hb, hr]
  exact pow_ne_zero 2 (one_div_ne_zero (ne_of_gt h2))

/-- C2 amended — the bias metric returns the square of `bias / log 2`
(the code divides `bias` itself, not `log(bias)`, by `log 2`), where
`bias = (hits+fas)/(hits+misses+eps)`. -/
theorem bias_formula (hits misses fas eps : ℝ) :
    SEVIRSkillScore.bias hits misses fas eps
      = ((hits + fas) / (hits + misses + eps) / Real.log 2) ^ 2 := rfl

/-- C1 — evaluation at the failing input: constructing the evaluator
with mode "1" and `seq_len = 2` (defaults otherwise) succeeds, but the
running confusion-count state is created with the flat shape
`(num_thresholds,) = [6]`, not the claimed
`(num_thresholds, seq_len) = [6, 2]` (the `state_shape` computed in
`__init__` is never used), and a `compute` call on an `NHWT` batch with
two time steps then raises a shape error when `self.hits[i] += hits`
tries to put a length-2 vector into a scalar slot. -/
theorem state_shape_mode1_bug :
    (SEVIRSkillScore.init "NHWT" "1" (some 2) "sevir"
        [16, 74, 133, 160, 181, 219] ["csi", "bias", "sucr", "pod"]
        (1 / 10000) id).map
        (fun s => (s.hits.shape, s.misses.shape, s.fas.shape))
      = .ok ([6], [6], [6]) ∧
    ([6] : List ℕ) ≠ [6, 2] ∧
    (SEVIRSkillScore.init "NHWT" "1" (some 2) "sevir"
        [16, 74, 133, 160, 181, 219] ["csi", "bias", "sucr", "pod"]
        (1 / 10000) id).bind
        (fun s => s.compute ⟨[1, 1, 1, 2], fun _ => .val 255⟩
            ⟨[1, 1, 1, 2], fun _ => .val 255⟩)
      = .error .valueError := by
  refine ⟨rfl, by decide, ?_⟩
  rfl

/-- Every multi-index enumerated for a shape has the shape's length. -/
theorem length_of_mem_shapeIndices (s : List ℕ) :
    ∀ idx ∈ shapeIndices s, idx.length = s.length := by
  induction s with
  | nil =>
      intro idx h
      simp only [shapeIndices, List.mem_singleton] at h
      subst h; rfl
  | cons n s ih =>
      intro idx h
      simp only [shapeIndices, List.mem_flatMap, List.mem_map] at h
      obtain ⟨i, _, ridx, hr, rfl⟩ := h
      simp [ih ridx hr]

/-- When every walked axis is a reduce axis, `mergeIdx` returns the
reduced-axes index itself. -/
theorem mergeIdx_of_all_mem (axes : List ℕ) :
    ∀ (n j : ℕ) (ridx kidx : List ℕ), ridx.length = n →
      (∀ i, j ≤ i → i < j + n → i ∈ axes) →
      mergeIdx axes n j ridx kidx = ridx := by
  intro n
  induction n with
  | zero =>
      intro j ridx kidx hlen _
      rw [List.length_eq_zero] at hlen
      subst hlen
      rfl
  | succ n ih =>
      intro j ridx kidx hlen hax
      cases ridx with
      | nil => simp at hlen
      | cons r rs =>
          have hj : j ∈ axes := hax j le_rfl (by omega)
          simp only [mergeIdx, if_pos hj, List.headD_cons, List.tail_cons]
          exact congrArg (r :: ·)
            (ih (j + 1) rs kidx (by simpa using hlen)
              (fun i h1 h2 => hax i (by omega) (by omega)))

/-- When exactly one walked axis `d` is kept, `mergeIdx` with the
one-entry kept index `[k]` inserts `k` at position `d` of the
reduced-axes index. -/
theorem mergeIdx_insertIdx (axes : List ℕ) (d : ℕ) :
    ∀ (n j : ℕ) (ridx : List ℕ) (k : ℕ), ridx.length + 1 = n →
      j ≤ d → d < j + n →
      (∀ i, j ≤ i → i < j + n → (i ∈ axes ↔ i ≠ d)) →
      mergeIdx axes n j ridx [k] = List.insertIdx (d - j) k ridx := by
  intro n
  induction n with
  | zero => intro j ridx k hlen; omega
  | succ n ih =>
      intro j ridx k hlen hjd hdn hax
      by_cases hj : j = d
      · have hnot : j ∉ axes := by
          intro hmem
          exact ((hax j le_rfl (by omega)).mp hmem) hj
        subst hj
        simp only [mergeIdx, if_neg hnot, List.headD_cons, List.tail_cons,
          Nat.sub_self, List.insertIdx_zero]
        exact congrArg (k :: ·)
          (mergeIdx_of_all_mem axes n (j + 1) ridx []
            (by omega)
            (fun i h1 h2 => (hax i (by omega) (by omega)).mpr (by omega)))
      · have hjx : j ∈ axes := (hax j le_rfl (by omega)).mpr hj
        cases ridx with
        | nil => simp only [List.length_nil] at hlen; omega
        | cons r rs =>
            simp only [mergeIdx, if_pos hjx, List.headD_cons, List.tail_cons]
            have hd : d - j = (d - (j + 1)) + 1 := by omega
            rw [hd, List.insertIdx_succ_cons]
            exact congrArg (r :: ·)
              (ih (j + 1) rs k (by simpa using hlen) (by omega) (by omega)
                (fun i h1 h2 => hax i (by omega) (by omega)))

/-- Removing position `d` from `range L` is filtering out the value
`d`. -/
theorem eraseIdx_range_eq_filter (L d : ℕ) (hd : d < L) :
    (List.range L).eraseIdx d
      = (List.range L).filter (fun j => decide (j ≠ d)) := by
  induction L with
  | zero => omega
  | succ L ih =>
      rw [List.range_succ, List.filter_append]
      by_cases hdL : d < L
      · rw [List.eraseIdx_append_of_lt_length (by simpa using hdL), ih hdL]
        congr 1
        simp only [List.filter_cons, List.filter_nil]
        rw [if_pos (by simp; omega)]
      · have hdeq : d = L := by omega
        subst hdeq
        rw [List.eraseIdx_append_of_length_le (by simp)]
        simp only [List.length_range, Nat.sub_self, List.eraseIdx_cons_zero,
          List.append_nil]
        have h2 : ([d].filter (fun j => decide (j ≠ d))) = [] := by simp
        rw [h2, List.filter_eq_self.mpr]
        · simp
        · intro a ha
          simp only [List.mem_range] at ha
          simp
          omega

/-- Filtering `range L` for the single value `d < L` gives `[d]`. -/
theorem filter_eq_range_singleton (L d : ℕ) (hd : d < L) :
    (List.range L).filter (fun j => decide (j = d)) = [d] := by
  induction L with
  | zero => omega
  | succ L ih =>
      rw [List.range_succ, List.filter_append]
      by_cases hdL : d < L
      · rw [ih hdL]
        have : ([L].filter (fun j => decide (j = d))) = [] := by
          simp
          omega
        simp [this]
      · have hdeq : d = L := by omega
        subst hdeq
        have h1 : (List.range d).filter (fun j => decide (j = d)) = [] := by
          rw [List.filter_eq_nil_iff]
          intro a ha
          simp only [List.mem_range] at ha
          simp
          omega
        simp [h1]

/-- Reading a list back off `range` of its length. -/
theorem map_getD_range (l : List ℕ) :
    (List.range l.length).map (fun j => l.getD j 0) = l := by
  induction l with
  | nil => rfl
  | cons a as ih =>
      rw [List.length_cons, List.range_succ_eq_map]
      simp only [List.map_cons, List.getD_cons_zero, List.map_map]
      have : ((fun j => (a :: as).getD j 0) ∘ Nat.succ)
          = fun j => as.getD j 0 := by
        funext j
        simp
      rw [this, ih]

/-- Selecting every axis except `d` and reading the dimension sizes off
the shape yields the shape with position `d` removed. -/
theorem filter_ne_map_getD (shape : List ℕ) :
    ∀ d, d < shape.length →
      ((List.range shape.length).filter (fun j => decide (j ≠ d))).map
          (fun j => shape.getD j 0)
        = shape.eraseIdx d := by
  induction shape with
  | nil => intro d hd; simp at hd
  | cons a as ih =>
      intro d hd
      rw [List.length_cons, List.range_succ_eq_map, List.filter_cons]
      cases d with
      | zero =>
          rw [if_neg (by simp)]
          rw [List.filter_map]
          have hcomp : ((fun j => decide (j ≠ 0)) ∘ Nat.succ)
              = fun _ => true := by
            funext j
            simp
          rw [hcomp, List.filter_true, List.map_map]
          have hcomp2 : ((fun j => (a :: as).getD j 0) ∘ Nat.succ)
              = fun j => as.getD j 0 := by
            funext j
            simp
          rw [hcomp2, map_getD_range]
          rfl
      | succ d =>
          rw [if_pos (by simp)]
          rw [List.filter_map, List.map_cons, List.getD_cons_zero,
            List.map_map]
          have hcomp : ((fun j => decide (j ≠ d + 1)) ∘ Nat.succ)
              = fun j => decide (j ≠ d) := by
            funext j
            simp
          have hcomp2 : ((fun j => (a :: as).getD j 0) ∘ Nat.succ)
              = fun j => as.getD j 0 := by
            funext j
            simp
          rw [hcomp]
          have := ih d (by simpa using hd)
          rw [List.eraseIdx_cons_succ]
          rw [← this]
          congr 1

/-- A `flatMap` whose blocks are all empty except the one at `k < a`
collapses to that block. -/
theorem flatMap_range_ite {β : Type} (Y : List β) :
    ∀ (a k : ℕ), k < a →
      (List.range a).flatMap (fun i => if i = k then Y else []) = Y := by
  intro a
  induction a with
  | zero => omega
  | succ a ih =>
      intro k hk
      rw [List.range_succ, List.flatMap_append]
      by_cases hka : k < a
      · rw [ih k hka]
        simp only [List.flatMap_cons, List.flatMap_nil, List.append_nil]
        rw [if_neg (by omega)]
        simp
      · have : k = a := by omega
        subst this
        have hz : (List.range k).flatMap
            (fun i => if i = k then Y else []) = [] := by
          rw [List.flatMap_eq_nil_iff]
          intro i hi
          rw [if_neg (by simp at hi; omega)]
        rw [hz]
        simp

/-- The row-major enumeration of a shape, restricted to the indices
whose coordinate at axis `d` equals `k`, is the enumeration of the shape
without axis `d`, with `k` re-inserted at position `d`. -/
theorem filter_shapeIndices_eq_map_insertIdx :
    ∀ (shape : List ℕ) (d k : ℕ), d < shape.length → k < shape.getD d 0 →
      (shapeIndices shape).filter (fun idx => decide (idx.getD d 0 = k))
        = (shapeIndices (shape.eraseIdx d)).map (List.insertIdx d k) := by
  intro shape
  induction shape with
  | nil => intro d k hd _; simp at hd
  | cons a as ih =>
      intro d k hd hk
      cases d with
      | zero =>
          simp only [List.getD_cons_zero] at hk
          rw [show shapeIndices (a :: as)
              = (List.range a).flatMap (fun i => (shapeIndices as).map (i :: ·))
              from rfl]
          rw [List.filter_flatMap]
          have hblock : ∀ i,
              ((shapeIndices as).map (i :: ·)).filter
                  (fun idx => decide (idx.getD 0 0 = k))
              = if i = k then (shapeIndices as).map (k :: ·) else [] := by
            intro i
            rw [List.filter_map]
            have hc : ((fun idx => decide (idx.getD 0 0 = k)) ∘ (i :: ·))
                = fun _ => decide (i = k) := by
              funext ridx
              simp
            rw [hc]
            by_cases hik : i = k
            · subst hik
              simp
            · simp [hik]
          rw [List.flatMap_congr (fun i _ => hblock i)]
          rw [flatMap_range_ite _ a k hk]
          rw [List.eraseIdx_cons_zero]
          apply List.map_congr_left
          intro ridx _
          rw [List.insertIdx_zero]
      | succ d =>
          simp only [List.getD_cons_succ] at hk
          rw [show shapeIndices (a :: as)
              = (List.range a).flatMap (fun i => (shapeIndices as).map (i :: ·))
              from rfl]
          rw [List.eraseIdx_cons_succ]
          rw [show shapeIndices (a :: as.eraseIdx d)
              = (List.range a).flatMap
                  (fun i => (shapeIndices (as.eraseIdx d)).map (i :: ·))
              from rfl]
          rw [List.filter_flatMap, List.map_flatMap]
          refine List.flatMap_congr ?_
          intro i _
          rw [List.filter_map]
          have h1 : ((fun idx => decide (idx.getD (d + 1) 0 = k)) ∘ (i :: ·))
              = fun ridx => decide (ridx.getD d 0 = k) := by
            funext ridx
            simp
          rw [h1, ih d k (by simpa using hd) hk]
          simp only [List.map_map]
          apply List.map_congr_left
          intro ridx _
          simp [List.insertIdx_succ_cons]

/-- Summing an indicator-valued function over a list counts the
positions where it is 1. -/
theorem sum_map_indicator {α : Type} (l : List α) (f : α → ℚ)
    (hf : ∀ x ∈ l, f x = 0 ∨ f x = 1) :
    (l.map f).sum = (l.countP (fun x => decide (f x = 1)) : ℚ) := by
  induction l with
  | nil => simp
  | cons a l ih =>
      have ih' := ih (fun x hx => hf x (List.mem_cons_of_mem a hx))
      rcases hf a (List.mem_cons_self a l) with h1 | h1 <;>
        simp [List.countP_cons, h1, ih'] <;> ring

/-- Summing a product of two indicator-valued functions counts the
positions where both are 1. -/
theorem sum_map_indicator_mul {α : Type} (l : List α) (f g : α → ℚ)
    (hf : ∀ x ∈ l, f x = 0 ∨ f x = 1) (hg : ∀ x ∈ l, g x = 0 ∨ g x = 1) :
    (l.map (fun x => f x * g x)).sum
      = (l.countP (fun x => decide (f x = 1) && decide (g x = 1)) : ℚ) := by
  induction l with
  | nil => simp
  | cons a l ih =>
      have ih' := ih (fun x hx => hf x (List.mem_cons_of_mem a hx))
        (fun x hx => hg x (List.mem_cons_of_mem a hx))
      rcases hf a (List.mem_cons_self a l) with h1 | h1 <;>
        rcases hg a (List.mem_cons_self a l) with h2 | h2 <;>
          simp [List.countP_cons, h1, h2, ih'] <;> ring

/-- int32 conversion is the identity on (embedded) natural numbers. -/
theorem toInt32_natCast (n : ℕ) : toInt32 (n : ℚ) = n := by
  rw [toInt32, if_pos (by positivity)]
  simp

/-- Entries of the `_threshold` indicator tensors are 0 or 1,
everywhere. -/
theorem threshold_data_mem_zero_one (target pred : PTensor PFloat)
    (T : ℚ) (idx : List ℕ) :
    ((_threshold target pred T).1.data idx = 0
        ∨ (_threshold target pred T).1.data idx = 1) ∧
    ((_threshold target pred T).2.data idx = 0
        ∨ (_threshold target pred T).2.data idx = 1) := by
  simp only [_threshold, PTensor.map, PTensor.zipWith, PTensor.maskSet,
    boolToFloat]
  constructor <;> split_ifs <;> simp

/-- Summing over every axis of `range L` (the mode-"0" reduction, where
the layout is at least as long as the data rank): the result is 0-dim
and every entry is the sum of the data over all indices of the shape. -/
theorem sumAxes_range_all (x : PTensor ℚ) (L : ℕ)
    (hlen : x.shape.length ≤ L) :
    (x.sumAxes (List.range L)).shape = [] ∧
    ∀ kidx, (x.sumAxes (List.range L)).data kidx
        = ((shapeIndices x.shape).map x.data).sum := by
  have hred : ((List.range x.shape.length).filter
        (· ∈ List.range L)).map (fun j => x.shape.getD j 0) = x.shape := by
    have h1 : (List.range x.shape.length).filter
        (fun j => decide (j ∈ List.range L)) = List.range x.shape.length := by
      rw [List.filter_eq_self]
      intro a ha
      simp only [List.mem_range] at ha
      simp only [List.mem_range, decide_eq_true_eq]
      omega
    rw [h1, map_getD_range]
  constructor
  · simp only [PTensor.sumAxes]
    rw [List.map_eq_nil_iff, List.filter_eq_nil_iff]
    intro a ha
    simp only [List.mem_range] at ha
    simp
    omega
  · intro kidx
    simp only [PTensor.sumAxes]
    rw [hred]
    congr 1
    apply List.map_congr_left
    intro ridx hr
    exact congrArg x.data
      (mergeIdx_of_all_mem (List.range L) x.shape.length 0 ridx kidx
        (length_of_mem_shapeIndices x.shape ridx hr)
        (fun i _ h2 => by simp only [List.mem_range]; omega))

/-- Summing over every axis except `d` (the keep-sequence-dim
reduction, for a layout matching the data rank): the result is 1-dim of
size `shape[d]`, and its entry at `[k]` sums the data over all indices
whose coordinate at axis `d` is `k`. -/
theorem sumAxes_eraseIdx_range (x : PTensor ℚ) (L d : ℕ) (hd : d < L)
    (hlen : x.shape.length = L) :
    (x.sumAxes ((List.range L).eraseIdx d)).shape = [x.shape.getD d 0] ∧
    ∀ k, k < x.shape.getD d 0 →
      (x.sumAxes ((List.range L).eraseIdx d)).data [k]
        = (((shapeIndices x.shape).filter
            (fun idx => decide (idx.getD d 0 = k))).map x.data).sum := by
  have hmem : ∀ j, j ∈ (List.range L).eraseIdx d ↔ (j < L ∧ j ≠ d) := by
    intro j
    rw [eraseIdx_range_eq_filter L d hd, List.mem_filter, List.mem_range]
    simp
  have hred : ((List.range x.shape.length).filter
        (· ∈ (List.range L).eraseIdx d)).map (fun j => x.shape.getD j 0)
      = x.shape.eraseIdx d := by
    have h1 : (List.range x.shape.length).filter
          (fun j => decide (j ∈ (List.range L).eraseIdx d))
        = (List.range x.shape.length).filter (fun j => decide (j ≠ d)) := by
      apply List.filter_congr
      intro j hj
      simp only [List.mem_range] at hj
      simp only [hmem, decide_eq_decide]
      omega
    rw [h1, filter_ne_map_getD x.shape d (by omega)]
  have hkept : ((List.range x.shape.length).filter
        (· ∉ (List.range L).eraseIdx d)).map (fun j => x.shape.getD j 0)
      = [x.shape.getD d 0] := by
    have h1 : (List.range x.shape.length).filter
          (fun j => decide (j ∉ (List.range L).eraseIdx d))
        = (List.range x.shape.length).filter (fun j => decide (j = d)) := by
      apply List.filter_congr
      intro j hj
      simp only [List.mem_range] at hj
      simp only [hmem, decide_eq_decide]
      omega
    rw [h1, hlen, filter_eq_range_singleton L d hd]
    rfl
  constructor
  · simp only [PTensor.sumAxes]
    exact hkept
  · intro k hk
    simp only [PTensor.sumAxes]
    rw [hred]
    rw [filter_shapeIndices_eq_map_insertIdx x.shape d k (by omega) hk]
    rw [List.map_map]
    congr 1
    apply List.map_congr_left
    intro ridx hr
    have hrlen : ridx.length + 1 = x.shape.length := by
      have := length_of_mem_shapeIndices _ ridx hr
      rw [this, List.length_eraseIdx]
      simp only [if_pos (show d < x.shape.length by omega)]
      omega
    have := mergeIdx_insertIdx ((List.range L).eraseIdx d) d
      x.shape.length 0 ridx k (by omega) (by omega) (by omega)
      (fun i _ h2 => by rw [hmem i]; omega)
    rw [this]
    simp

/-- Sum of `t*p` over any index list is the count of joint positives. -/
theorem sum_map_hits (target pred : PTensor PFloat) (T : ℚ)
    (l : List (List ℕ)) :
    (l.map (fun idx => (_threshold target pred T).1.data idx
        * (_threshold target pred T).2.data idx)).sum
      = (l.countP (fun idx =>
          decide ((_threshold target pred T).1.data idx = 1)
            && decide ((_threshold target pred T).2.data idx = 1)) : ℚ) :=
  sum_map_indicator_mul l _ _
    (fun idx _ => (threshold_data_mem_zero_one target pred T idx).1)
    (fun idx _ => (threshold_data_mem_zero_one target pred T idx).2)

/-- Sum of `t*(1-p)` over any index list is the count of indices that
are target-positive and not prediction-positive. -/
theorem sum_map_misses (target pred : PTensor PFloat) (T : ℚ)
    (l : List (List ℕ)) :
    (l.map (fun idx => (_threshold target pred T).1.data idx
        * (1 - (_threshold target pred T).2.data idx))).sum
      = (l.countP (fun idx =>
          decide ((_threshold target pred T).1.data idx = 1)
            && !decide ((_threshold target pred T).2.data idx = 1)) : ℚ) := by
  rw [sum_map_indicator_mul l _ _
    (fun idx _ => (threshold_data_mem_zero_one target pred T idx).1)
    (fun idx _ => by
      rcases (threshold_data_mem_zero_one target pred T idx).2 with h | h <;>
        rw [h] <;> norm_num)]
  congr 1
  apply List.countP_congr
  intro idx _
  rcases (threshold_data_mem_zero_one target pred T idx).2 with h | h <;>
    rw [h] <;> norm_num

/-- Sum of `(1-t)*p` over any index list is the count of indices that
are prediction-positive and not target-positive. -/
theorem sum_map_fas (target pred : PTensor PFloat) (T : ℚ)
    (l : List (List ℕ)) :
    (l.map (fun idx => (1 - (_threshold target pred T).1.data idx)
        * (_threshold target pred T).2.data idx)).sum
      = (l.countP (fun idx =>
          !decide ((_threshold target pred T).1.data idx = 1)
            && decide ((_threshold target pred T).2.data idx = 1)) : ℚ) := by
  rw [sum_map_indicator_mul l _ _
    (fun idx _ => by
      rcases (threshold_data_mem_zero_one target pred T idx).1 with h | h <;>
        rw [h] <;> norm_num)
    (fun idx _ => (threshold_data_mem_zero_one target pred T idx).2)]
  congr 1
  apply List.countP_congr
  intro idx _
  rcases (threshold_data_mem_zero_one target pred T idx).1 with h | h <;>
    rw [h] <;> norm_num

/-- Without `keep_seq_len_dim`, the reduce axes are all layout axes. -/
theorem reduce_dims_keep_false (s : SEVIRSkillScore)
    (h : s.keep_seq_len_dim = false) :
    s.hits_misses_fas_reduce_dims = List.range s.layout.toList.length := by
  simp [SEVIRSkillScore.hits_misses_fas_reduce_dims, h]

/-- With `keep_seq_len_dim` and a layout containing 'T', the reduce axes
are all layout axes except the 'T' axis. -/
theorem reduce_dims_keep_true (s : SEVIRSkillScore)
    (h : s.keep_seq_len_dim = true) (hT : 'T' ∈ s.layout.toList) :
    s.hits_misses_fas_reduce_dims
      = (List.range s.layout.toList.length).eraseIdx
          (s.layout.toList.indexOf 'T') := by
  simp only [SEVIRSkillScore.hits_misses_fas_reduce_dims]
  rw [if_pos h, if_pos hT]

/-- C4 — for every threshold, `calc_seq_hits_misses_fas` returns
hits = Σ(t∧p), misses = Σ(t∧¬p), false-alarms = Σ(¬t∧p) over the
binarized indicator tensors `t`, `p` produced by `_threshold`, where the
sum (count) ranges over all tensor dimensions when the sequence
dimension is not kept (mode "0"), and over all dimensions except the
'T' axis of the layout when it is kept (modes "1"/"2"). -/
theorem calc_seq_hits_misses_fas_spec (s : SEVIRSkillScore)
    (pred target : PTensor PFloat) (threshold : ℤ)
    (hlen : target.shape.length = s.layout.toList.length) :
    (s.keep_seq_len_dim = false →
      (s.calc_seq_hits_misses_fas pred target threshold).1.data []
          = ((shapeIndices target.shape).countP (fun idx =>
              decide ((_threshold target pred (threshold : ℚ)).1.data idx = 1)
                && decide ((_threshold target pred (threshold : ℚ)).2.data idx = 1)) : ℚ)
      ∧ (s.calc_seq_hits_misses_fas pred target threshold).2.1.data []
          = ((shapeIndices target.shape).countP (fun idx =>
              decide ((_threshold target pred (threshold : ℚ)).1.data idx = 1)
                && !decide ((_threshold target pred (threshold : ℚ)).2.data idx = 1)) : ℚ)
      ∧ (s.calc_seq_hits_misses_fas pred target threshold).2.2.data []
          = ((shapeIndices target.shape).countP (fun idx =>
              !decide ((_threshold target pred (threshold : ℚ)).1.data idx = 1)
                && decide ((_threshold target pred (threshold : ℚ)).2.data idx = 1)) : ℚ)) ∧
    (s.keep_seq_len_dim = true → 'T' ∈ s.layout.toList →
      ∀ k, k < target.shape.getD (s.layout.toList.indexOf 'T') 0 →
        (s.calc_seq_hits_misses_fas pred target threshold).1.data [k]
            = ((shapeIndices target.shape).countP (fun idx =>
                (decide ((_threshold target pred (threshold : ℚ)).1.data idx = 1)
                  && decide ((_threshold target pred (threshold : ℚ)).2.data idx = 1))
                && decide (idx.getD (s.layout.toList.indexOf 'T') 0 = k)) : ℚ)
        ∧ (s.calc_seq_hits_misses_fas pred target threshold).2.1.data [k]
            = ((shapeIndices target.shape).countP (fun idx =>
                (decide ((_threshold target pred (threshold : ℚ)).1.data idx = 1)
                  && !decide ((_threshold target pred (threshold : ℚ)).2.data idx = 1))
                && decide (idx.getD (s.layout.toList.indexOf 'T') 0 = k)) : ℚ)
        ∧ (s.calc_seq_hits_misses_fas pred target threshold).2.2.data [k]
            = ((shapeIndices target.shape).countP (fun idx =>
                (!decide ((_threshold target pred (threshold : ℚ)).1.data idx = 1)
                  && decide ((_threshold target pred (threshold : ℚ)).2.data idx = 1))
                && decide (idx.getD (s.layout.toList.indexOf 'T') 0 = k)) : ℚ)) := by
  constructor
  · intro hkeep
    have hdims := reduce_dims_keep_false s hkeep
    refine ⟨?_, ?_, ?_⟩
    · show toInt32
        ((((_threshold target pred (threshold : ℚ)).1.zipWith
            (_threshold target pred (threshold : ℚ)).2
            (· * ·)).sumAxes s.hits_misses_fas_reduce_dims).data []) = _
      rw [hdims,
        (sumAxes_range_all _ s.layout.toList.length (le_of_eq hlen)).2 []]
      rw [show (shapeIndices
            ((_threshold target pred (threshold : ℚ)).1.zipWith
              (_threshold target pred (threshold : ℚ)).2 (· * ·)).shape).map
            ((_threshold target pred (threshold : ℚ)).1.zipWith
              (_threshold target pred (threshold : ℚ)).2 (· * ·)).data
          = (shapeIndices target.shape).map (fun idx =>
              (_threshold target pred (threshold : ℚ)).1.data idx
                * (_threshold target pred (threshold : ℚ)).2.data idx)
          from rfl]
      rw [sum_map_hits, toInt32_natCast]
    · show toInt32
        ((((_threshold target pred (threshold : ℚ)).1.zipWith
            ((_threshold target pred (threshold : ℚ)).2.map (1 - ·))
            (· * ·)).sumAxes s.hits_misses_fas_reduce_dims).data []) = _
      rw [hdims,
        (sumAxes_range_all _ s.layout.toList.length (le_of_eq hlen)).2 []]
      rw [show (shapeIndices
            ((_threshold target pred (threshold : ℚ)).1.zipWith
              ((_threshold target pred (threshold : ℚ)).2.map (1 - ·))
              (· * ·)).shape).map
            ((_threshold target pred (threshold : ℚ)).1.zipWith
              ((_threshold target pred (threshold : ℚ)).2.map (1 - ·))
              (· * ·)).data
          = (shapeIndices target.shape).map (fun idx =>
              (_threshold target pred (threshold : ℚ)).1.data idx
                * (1 - (_threshold target pred (threshold : ℚ)).2.data idx))
          from rfl]
      rw [sum_map_misses, toInt32_natCast]
    · show toInt32
        (((((_threshold target pred (threshold : ℚ)).1.map (1 - ·)).zipWith
            (_threshold target pred (threshold : ℚ)).2
            (· * ·)).sumAxes s.hits_misses_fas_reduce_dims).data []) = _
      rw [hdims,
        (sumAxes_range_all _ s.layout.toList.length (le_of_eq hlen)).2 []]
      rw [show (shapeIndices
            (((_threshold target pred (threshold : ℚ)).1.map (1 - ·)).zipWith
              (_threshold target pred (threshold : ℚ)).2 (· * ·)).shape).map
            (((_threshold target pred (threshold : ℚ)).1.map (1 - ·)).zipWith
              (_threshold target pred (threshold : ℚ)).2 (· * ·)).data
          = (shapeIndices target.shape).map (fun idx =>
              (1 - (_threshold target pred (threshold : ℚ)).1.data idx)
                * (_threshold target pred (threshold : ℚ)).2.data idx)
          from rfl]
      rw [sum_map_fas, toInt32_natCast]
  · intro hkeep hT k hk
    have hdims := reduce_dims_keep_true s hkeep hT
    have hd : s.layout.toList.indexOf 'T' < s.layout.toList.length :=
      List.indexOf_lt_length.mpr hT
    refine ⟨?_, ?_, ?_⟩
    · show toInt32
        ((((_threshold target pred (threshold : ℚ)).1.zipWith
            (_threshold target pred (threshold : ℚ)).2
            (· * ·)).sumAxes s.hits_misses_fas_reduce_dims).data [k]) = _
      rw [hdims,
        (sumAxes_eraseIdx_range _ s.layout.toList.length
          (s.layout.toList.indexOf 'T') hd hlen).2 k hk]
      rw [show ((shapeIndices
              ((_threshold target pred (threshold : ℚ)).1.zipWith
              (_threshold target pred (threshold : ℚ)).2 (· * ·)).shape).filter (fun idx =>
              decide (idx.getD (s.layout.toList.indexOf 'T') 0 = k))).map
            ((_threshold target pred (threshold : ℚ)).1.zipWith
              (_threshold target pred (threshold : ℚ)).2 (· * ·)).data
          = ((shapeIndices target.shape).filter (fun idx =>
              decide (idx.getD (s.layout.toList.indexOf 'T') 0 = k))).map
              (fun idx =>
                (_threshold target pred (threshold : ℚ)).1.data idx
                  * (_threshold target pred (threshold : ℚ)).2.data idx)
          from rfl]
      rw [sum_map_hits, List.countP_filter, toInt32_natCast]
    · show toInt32
        ((((_threshold target pred (threshold : ℚ)).1.zipWith
            ((_threshold target pred (threshold : ℚ)).2.map (1 - ·))
            (· * ·)).sumAxes s.hits_misses_fas_reduce_dims).data [k]) = _
      rw [hdims,
        (sumAxes_eraseIdx_range _ s.layout.toList.length
          (s.layout.toList.indexOf 'T') hd hlen).2 k hk]
      rw [show ((shapeIndices
              ((_threshold target pred (threshold : ℚ)).1.zipWith
              ((_threshold target pred (threshold : ℚ)).2.map (1 - ·))
              (· * ·)).shape).filter (fun idx =>
              decide (idx.getD (s.layout.toList.indexOf 'T') 0 = k))).map
            ((_threshold target pred (threshold : ℚ)).1.zipWith
              ((_threshold target pred (threshold : ℚ)).2.map (1 - ·))
              (· * ·)).data
          = ((shapeIndices target.shape).filter (fun idx =>
              decide (idx.getD (s.layout.toList.indexOf 'T') 0 = k))).map
              (fun idx =>
                (_threshold target pred (threshold : ℚ)).1.data idx
                  * (1 - (_threshold target pred (threshold : ℚ)).2.data idx))
          from rfl]
      rw [sum_map_misses, List.countP_filter, toInt32_natCast]
    · show toInt32
        (((((_threshold target pred (threshold : ℚ)).1.map (1 - ·)).zipWith
            (_threshold target pred (threshold : ℚ)).2
            (· * ·)).sumAxes s.hits_misses_fas_reduce_dims).data [k]) = _
      rw [hdims,
        (sumAxes_eraseIdx_range _ s.layout.toList.length
          (s.layout.toList.indexOf 'T') hd hlen).2 k hk]
      rw [show ((shapeIndices
              (((_threshold target pred (threshold : ℚ)).1.map (1 - ·)).zipWith
              (_threshold target pred (threshold : ℚ)).2 (· * ·)).shape).filter (fun idx =>
              decide (idx.getD (s.layout.toList.indexOf 'T') 0 = k))).map
            (((_threshold target pred (threshold : ℚ)).1.map (1 - ·)).zipWith
              (_threshold target pred (threshold : ℚ)).2 (· * ·)).data
          = ((shapeIndices target.shape).filter (fun idx =>
              decide (idx.getD (s.layout.toList.indexOf 'T') 0 = k))).map
              (fun idx =>
                (1 - (_threshold target pred (threshold : ℚ)).1.data idx)
                  * (_threshold target pred (threshold : ℚ)).2.data idx)
          from rfl]
      rw [sum_map_fas, List.countP_filter, toInt32_natCast]

/-- Marginalizing the confusion counts: the int32-cast sums of `f*g`
and `f*(1-g)` over indicator-valued `f`, `g` add up to the plain sum of
`f`. -/
theorem toInt32_sum_mul_add_left {α : Type} (l : List α) (f g : α → ℚ)
    (hf : ∀ x ∈ l, f x = 0 ∨ f x = 1) (hg : ∀ x ∈ l, g x = 0 ∨ g x = 1) :
    toInt32 ((l.map (fun x => f x * g x)).sum)
      + toInt32 ((l.map (fun x => f x * (1 - g x))).sum)
      = (l.map f).sum := by
  have hg' : ∀ x ∈ l, 1 - g x = 0 ∨ 1 - g x = 1 := by
    intro x hx
    rcases hg x hx with h | h <;> rw [h] <;> norm_num
  have hsplit : (l.map f).sum
      = (l.map (fun x => f x * g x)).sum
        + (l.map (fun x => f x * (1 - g x))).sum := by
    rw [← List.sum_map_add]
    exact congrArg List.sum (List.map_congr_left (fun x _ => by ring))
  rw [sum_map_indicator_mul l f g hf hg,
    sum_map_indicator_mul l f (fun x => 1 - g x) hf hg',
    toInt32_natCast, toInt32_natCast, hsplit,
    sum_map_indicator_mul l f g hf hg,
    sum_map_indicator_mul l f (fun x => 1 - g x) hf hg']

/-- Marginalizing the confusion counts on the other side: the
int32-cast sums of `f*g` and `(1-f)*g` add up to the plain sum of
`g`. -/
theorem toInt32_sum_mul_add_right {α : Type} (l : List α) (f g : α → ℚ)
    (hf : ∀ x ∈ l, f x = 0 ∨ f x = 1) (hg : ∀ x ∈ l, g x = 0 ∨ g x = 1) :
    toInt32 ((l.map (fun x => f x * g x)).sum)
      + toInt32 ((l.map (fun x => (1 - f x) * g x)).sum)
      = (l.map g).sum := by
  have hf' : ∀ x ∈ l, 1 - f x = 0 ∨ 1 - f x = 1 := by
    intro x hx
    rcases hf x hx with h | h <;> rw [h] <;> norm_num
  have hsplit : (l.map g).sum
      = (l.map (fun x => f x * g x)).sum
        + (l.map (fun x => (1 - f x) * g x)).sum := by
    rw [← List.sum_map_add]
    exact congrArg List.sum (List.map_congr_left (fun x _ => by ring))
  rw [sum_map_indicator_mul l f g hf hg,
    sum_map_indicator_mul l (fun x => 1 - f x) g hf' hg,
    toInt32_natCast, toInt32_natCast, hsplit,
    sum_map_indicator_mul l f g hf hg,
    sum_map_indicator_mul l (fun x => 1 - f x) g hf' hg]

/-- Tensor-level marginalization: at every output entry, the int32-cast
axis-sums of `t*p` and `t*(1-p)` add up to the axis-sum of `t`. -/
theorem sumAxes_margin_left (t p : PTensor ℚ) (axes : List ℕ)
    (ht : ∀ idx, t.data idx = 0 ∨ t.data idx = 1)
    (hp : ∀ idx, p.data idx = 0 ∨ p.data idx = 1) (kidx : List ℕ) :
    toInt32 (((t.zipWith p (· * ·)).sumAxes axes).data kidx)
      + toInt32 (((t.zipWith (p.map (1 - ·)) (· * ·)).sumAxes axes).data kidx)
      = (t.sumAxes axes).data kidx := by
  show toInt32
      ((List.map (fun ridx =>
          t.data (mergeIdx axes t.shape.length 0 ridx kidx)
            * p.data (mergeIdx axes t.shape.length 0 ridx kidx))
        (shapeIndices (((List.range t.shape.length).filter (· ∈ axes)).map
          (fun j => t.shape.getD j 0)))).sum)
    + toInt32
      ((List.map (fun ridx =>
          t.data (mergeIdx axes t.shape.length 0 ridx kidx)
            * (1 - p.data (mergeIdx axes t.shape.length 0 ridx kidx)))
        (shapeIndices (((List.range t.shape.length).filter (· ∈ axes)).map
          (fun j => t.shape.getD j 0)))).sum)
    = (List.map (fun ridx =>
          t.data (mergeIdx axes t.shape.length 0 ridx kidx))
        (shapeIndices (((List.range t.shape.length).filter (· ∈ axes)).map
          (fun j => t.shape.getD j 0)))).sum
  exact toInt32_sum_mul_add_left _
    (fun ridx => t.data (mergeIdx axes t.shape.length 0 ridx kidx))
    (fun ridx => p.data (mergeIdx axes t.shape.length 0 ridx kidx))
    (fun ridx _ => ht _) (fun ridx _ => hp _)

/-- Tensor-level marginalization on the prediction side: the int32-cast
axis-sums of `t*p` and `(1-t)*p` add up to the axis-sum of `p`
(for same-shape `t` and `p`). -/
theorem sumAxes_margin_right (t p : PTensor ℚ) (axes : List ℕ)
    (ht : ∀ idx, t.data idx = 0 ∨ t.data idx = 1)
    (hp : ∀ idx, p.data idx = 0 ∨ p.data idx = 1)
    (hsh : p.shape = t.shape) (kidx : List ℕ) :
    toInt32 (((t.zipWith p (· * ·)).sumAxes axes).data kidx)
      + toInt32 ((((t.map (1 - ·)).zipWith p (· * ·)).sumAxes axes).data kidx)
      = (p.sumAxes axes).data kidx := by
  show toInt32
      ((List.map (fun ridx =>
          t.data (mergeIdx axes t.shape.length 0 ridx kidx)
            * p.data (mergeIdx axes t.shape.length 0 ridx kidx))
        (shapeIndices (((List.range t.shape.length).filter (· ∈ axes)).map
          (fun j => t.shape.getD j 0)))).sum)
    + toInt32
      ((List.map (fun ridx =>
          (1 - t.data (mergeIdx axes t.shape.length 0 ridx kidx))
            * p.data (mergeIdx axes t.shape.length 0 ridx kidx))
        (shapeIndices (((List.range t.shape.length).filter (· ∈ axes)).map
          (fun j => t.shape.getD j 0)))).sum)
    = (List.map (fun ridx =>
          p.data (mergeIdx axes p.shape.length 0 ridx kidx))
        (shapeIndices (((List.range p.shape.length).filter (· ∈ axes)).map
          (fun j => p.shape.getD j 0)))).sum
  rw [hsh]
  exact toInt32_sum_mul_add_right _
    (fun ridx => t.data (mergeIdx axes t.shape.length 0 ridx kidx))
    (fun ridx => p.data (mergeIdx axes t.shape.length 0 ridx kidx))
    (fun ridx _ => ht _) (fun ridx _ => hp _)

/-- Summing an indicator tensor over all axes counts its positive
entries. -/
theorem sumAxes_all_indicator_count (x : PTensor ℚ) (L : ℕ)
    (hlen : x.shape.length ≤ L)
    (hx : ∀ idx, x.data idx = 0 ∨ x.data idx = 1) (kidx : List ℕ) :
    (x.sumAxes (List.range L)).data kidx
      = ((shapeIndices x.shape).countP
          (fun idx => decide (x.data idx = 1)) : ℚ) := by
  rw [(sumAxes_range_all x L hlen).2 kidx]
  exact sum_map_indicator _ _ (fun idx _ => hx idx)

/-- C10 — for every call of `calc_seq_hits_misses_fas` on same-shape
tensors, the returned counts satisfy hits + misses = (axis-)sum of the
binarized target indicator `t` and hits + false-alarms = sum of the
binarized prediction indicator `p`, entrywise; and in the
all-dimensions-reduced case (mode "0") these sums are the number of
(non-NaN-masked) target positives and prediction positives. -/
theorem calc_seq_margin_sums (s : SEVIRSkillScore)
    (pred target : PTensor PFloat) (threshold : ℤ)
    (hsh : pred.shape = target.shape) :
    (∀ kidx : List ℕ,
      (s.calc_seq_hits_misses_fas pred target threshold).1.data kidx
          + (s.calc_seq_hits_misses_fas pred target threshold).2.1.data kidx
        = (((_threshold target pred (threshold : ℚ)).1.sumAxes
            s.hits_misses_fas_reduce_dims).data kidx)
      ∧ (s.calc_seq_hits_misses_fas pred target threshold).1.data kidx
          + (s.calc_seq_hits_misses_fas pred target threshold).2.2.data kidx
        = (((_threshold target pred (threshold : ℚ)).2.sumAxes
            s.hits_misses_fas_reduce_dims).data kidx)) ∧
    (s.keep_seq_len_dim = false →
      target.shape.length ≤ s.layout.toList.length →
      ∀ kidx : List ℕ,
        (((_threshold target pred (threshold : ℚ)).1.sumAxes
            s.hits_misses_fas_reduce_dims).data kidx)
          = ((shapeIndices target.shape).countP (fun idx =>
              decide ((_threshold target pred (threshold : ℚ)).1.data idx = 1)) : ℚ)
        ∧ (((_threshold target pred (threshold : ℚ)).2.sumAxes
            s.hits_misses_fas_reduce_dims).data kidx)
          = ((shapeIndices pred.shape).countP (fun idx =>
              decide ((_threshold target pred (threshold : ℚ)).2.data idx = 1)) : ℚ)) := by
  constructor
  · intro kidx
    constructor
    · exact sumAxes_margin_left
        (_threshold target pred (threshold : ℚ)).1
        (_threshold target pred (threshold : ℚ)).2
        s.hits_misses_fas_reduce_dims
        (fun idx => (threshold_data_mem_zero_one target pred _ idx).1)
        (fun idx => (threshold_data_mem_zero_one target pred _ idx).2)
        kidx
    · exact sumAxes_margin_right
        (_threshold target pred (threshold : ℚ)).1
        (_threshold target pred (threshold : ℚ)).2
        s.hits_misses_fas_reduce_dims
        (fun idx => (threshold_data_mem_zero_one target pred _ idx).1)
        (fun idx => (threshold_data_mem_zero_one target pred _ idx).2)
        hsh kidx
  · intro hkeep hlen kidx
    have hdims := reduce_dims_keep_false s hkeep
    constructor
    · rw [hdims]
      exact sumAxes_all_indicator_count
        (_threshold target pred (threshold : ℚ)).1
        s.layout.toList.length hlen
        (fun idx => (threshold_data_mem_zero_one target pred _ idx).1)
        kidx
    · rw [hdims]
      exact sumAxes_all_indicator_count
        (_threshold target pred (threshold : ℚ)).2
        s.layout.toList.length
        (le_of_eq_of_le (congrArg List.length hsh) hlen)
        (fun idx => (threshold_data_mem_zero_one target pred _ idx).2)
        kidx

/-- Witness for C4 on a concrete mode-"0" configuration and a 2-pixel
batch: one hit, no miss, one false alarm. -/
theorem calc_seq_hits_misses_fas_spec_witness :
    let s : SEVIRSkillScore :=
      ⟨"NHWT", "sevir", [74], ["csi"], 1 / 10000, "0", none, false,
        paddleZeros [1], paddleZeros [1], paddleZeros [1], id⟩
    let target : PTensor PFloat :=
      ⟨[1, 1, 1, 2], fun idx => if idx = [0, 0, 0, 0] then .val 100 else .val 50⟩
    let pred : PTensor PFloat := ⟨[1, 1, 1, 2], fun _ => .val 80⟩
    (s.calc_seq_hits_misses_fas pred target 74).1.data [] = 1 ∧
    (s.calc_seq_hits_misses_fas pred target 74).2.1.data [] = 0 ∧
    (s.calc_seq_hits_misses_fas pred target 74).2.2.data [] = 1 := by
  intro s target pred
  obtain ⟨h1, h2, h3⟩ :=
    (calc_seq_hits_misses_fas_spec s pred target 74 rfl).1 rfl
  rw [h1, h2, h3]
  refine ⟨by decide, by decide, by decide⟩

/-- Witness for C10 on the same concrete configuration: the margin
identities hold and the margins are the positive counts (1 target
positive, 2 prediction positives). -/
theorem calc_seq_margin_sums_witness :
    let s : SEVIRSkillScore :=
      ⟨"NHWT", "sevir", [74], ["csi"], 1 / 10000, "0", none, false,
        paddleZeros [1], paddleZeros [1], paddleZeros [1], id⟩
    let target : PTensor PFloat :=
      ⟨[1, 1, 1, 2], fun idx => if idx = [0, 0, 0, 0] then .val 100 else .val 50⟩
    let pred : PTensor PFloat := ⟨[1, 1, 1, 2], fun _ => .val 80⟩
    ((s.calc_seq_hits_misses_fas pred target 74).1.data []
        + (s.calc_seq_hits_misses_fas pred target 74).2.1.data []
      = (((_threshold target pred ((74 : ℤ) : ℚ)).1.sumAxes
          s.hits_misses_fas_reduce_dims).data [])) ∧
    ((s.calc_seq_hits_misses_fas pred target 74).1.data []
        + (s.calc_seq_hits_misses_fas pred target 74).2.2.data []
      = (((_threshold target pred ((74 : ℤ) : ℚ)).2.sumAxes
          s.hits_misses_fas_reduce_dims).data [])) ∧
    (((_threshold target pred ((74 : ℤ) : ℚ)).1.sumAxes
        s.hits_misses_fas_reduce_dims).data []
      = ((shapeIndices target.shape).countP (fun idx =>
          decide ((_threshold target pred ((74 : ℤ) : ℚ)).1.data idx = 1)) : ℚ)) ∧
    (((_threshold target pred ((74 : ℤ) : ℚ)).2.sumAxes
        s.hits_misses_fas_reduce_dims).data []
      = ((shapeIndices pred.shape).countP (fun idx =>
          decide ((_threshold target pred ((74 : ℤ) : ℚ)).2.data idx = 1)) : ℚ)) := by
  intro s target pred
  have h := calc_seq_margin_sums s pred target 74 rfl
  exact ⟨(h.1 []).1, (h.1 []).2, (h.2 rfl (by decide) []).1,
    (h.2 rfl (by decide) []).2⟩

/-- In mode "0" (no kept sequence axis) the per-threshold batch counts
are 0-dim tensors. -/
theorem calc_shapes_keep_false (st : SEVIRSkillScore)
    (pred target : PTensor PFloat) (threshold : ℤ)
    (hk : st.keep_seq_len_dim = false)
    (hlen : target.shape.length ≤ st.layout.toList.length) :
    (st.calc_seq_hits_misses_fas pred target threshold).1.shape = [] ∧
    (st.calc_seq_hits_misses_fas pred target threshold).2.1.shape = [] ∧
    (st.calc_seq_hits_misses_fas pred target threshold).2.2.shape = [] := by
  have hdims := reduce_dims_keep_false st hk
  refine ⟨?_, ?_, ?_⟩
  · show (((_threshold target pred (threshold : ℚ)).1.zipWith
        (_threshold target pred (threshold : ℚ)).2 (· * ·)).sumAxes
        st.hits_misses_fas_reduce_dims).shape = []
    rw [hdims]
    exact (sumAxes_range_all _ _ hlen).1
  · show (((_threshold target pred (threshold : ℚ)).1.zipWith
        ((_threshold target pred (threshold : ℚ)).2.map (1 - ·))
        (· * ·)).sumAxes st.hits_misses_fas_reduce_dims).shape = []
    rw [hdims]
    exact (sumAxes_range_all _ _ hlen).1
  · show ((((_threshold target pred (threshold : ℚ)).1.map (1 - ·)).zipWith
        (_threshold target pred (threshold : ℚ)).2 (· * ·)).sumAxes
        st.hits_misses_fas_reduce_dims).shape = []
    rw [hdims]
    exact (sumAxes_range_all _ _ hlen).1

/-- Reduction of the scalar-slot update when the delta is 0-dim. -/
theorem setitemAdd_nil (state : PTensor ℚ) (i : ℕ) (delta : PTensor ℚ)
    (h : delta.shape = []) :
    setitemAdd state i delta = .ok ⟨state.shape, fun idx =>
      if idx = [i] then state.data [i] + delta.data []
      else state.data idx⟩ := by
  obtain ⟨sh, da⟩ := delta
  simp only at h
  subst h
  rfl

/-- The accumulation loop of `compute`, in mode "0": it succeeds, every
configuration field and every state shape is unchanged, each visited
per-threshold slot grows by exactly its batch count, and every other
entry of the state is untouched. -/
theorem accumulate_fold (pred target : PTensor PFloat) :
    ∀ (L : List (ℕ × ℤ)) (st : SEVIRSkillScore),
      st.keep_seq_len_dim = false →
      target.shape.length ≤ st.layout.toList.length →
      (L.map Prod.fst).Nodup →
      ∃ st2,
        (L.foldlM (fun st it => do
            let hmf := st.calc_seq_hits_misses_fas pred target it.2
            let h ← setitemAdd st.hits it.1 hmf.1
            let m ← setitemAdd st.misses it.1 hmf.2.1
            let f ← setitemAdd st.fas it.1 hmf.2.2
            return { st with hits := h, misses := m, fas := f }) st)
          = .ok st2 ∧
        st2.layout = st.layout ∧
        st2.preprocess_type = st.preprocess_type ∧
        st2.threshold_list = st.threshold_list ∧
        st2.metrics_list = st.metrics_list ∧
        st2.eps = st.eps ∧
        st2.mode = st.mode ∧
        st2.seq_len = st.seq_len ∧
        st2.keep_seq_len_dim = st.keep_seq_len_dim ∧
        st2.process_data_dict_back = st.process_data_dict_back ∧
        st2.hits.shape = st.hits.shape ∧
        st2.misses.shape = st.misses.shape ∧
        st2.fas.shape = st.fas.shape ∧
        (∀ it ∈ L,
          st2.hits.data [it.1] = st.hits.data [it.1]
              + (st.calc_seq_hits_misses_fas pred target it.2).1.data []
          ∧ st2.misses.data [it.1] = st.misses.data [it.1]
              + (st.calc_seq_hits_misses_fas pred target it.2).2.1.data []
          ∧ st2.fas.data [it.1] = st.fas.data [it.1]
              + (st.calc_seq_hits_misses_fas pred target it.2).2.2.data []) ∧
        (∀ idx : List ℕ, (∀ it ∈ L, idx ≠ [it.1]) →
          st2.hits.data idx = st.hits.data idx
          ∧ st2.misses.data idx = st.misses.data idx
          ∧ st2.fas.data idx = st.fas.data idx) := by
  intro L
  induction L with
  | nil =>
      intro st hk hlen _
      exact ⟨st, rfl, rfl, rfl, rfl, rfl, rfl, rfl, rfl, rfl, rfl, rfl,
        rfl, rfl, fun it hit => absurd hit (List.not_mem_nil it),
        fun idx _ => ⟨rfl, rfl, rfl⟩⟩
  | cons hd rest ih =>
      intro st hk hlen hnd
      rw [List.map_cons, List.nodup_cons] at hnd
      have hshape := calc_shapes_keep_false st pred target hd.2 hk hlen
      have e1 := setitemAdd_nil st.hits hd.1 _ hshape.1
      have e2 := setitemAdd_nil st.misses hd.1 _ hshape.2.1
      have e3 := setitemAdd_nil st.fas hd.1 _ hshape.2.2
      obtain ⟨st2, hfold, hc1, hc2, hc3, hc4, hc5, hc6, hc7, hc8, hc9,
          hs1, hs2, hs3, hmem, huntouched⟩ := ih
        { st with
          hits := ⟨st.hits.shape, fun idx =>
            if idx = [hd.1] then st.hits.data [hd.1]
              + (st.calc_seq_hits_misses_fas pred target hd.2).1.data []
            else st.hits.data idx⟩,
          misses := ⟨st.misses.shape, fun idx =>
            if idx = [hd.1] then st.misses.data [hd.1]
              + (st.calc_seq_hits_misses_fas pred target hd.2).2.1.data []
            else st.misses.data idx⟩,
          fas := ⟨st.fas.shape, fun idx =>
            if idx = [hd.1] then st.fas.data [hd.1]
              + (st.calc_seq_hits_misses_fas pred target hd.2).2.2.data []
            else st.fas.data idx⟩ } hk hlen hnd.2
      refine ⟨st2, ?_, hc1, hc2, hc3, hc4, hc5, hc6, hc7, hc8, hc9,
        hs1, hs2, hs3, ?_, ?_⟩
      · rw [List.foldlM_cons]
        simp only [e1, e2, e3]
        exact hfold
      · intro it hit
        rcases List.mem_cons.mp hit with hh | hr
        · subst hh
          have hut := huntouched [it.1] (fun it2 hit2 h2 => by
            have hfst : it.1 = it2.1 := by simpa using h2
            exact hnd.1 (hfst ▸ List.mem_map_of_mem Prod.fst hit2))
          refine ⟨?_, ?_, ?_⟩
          · rw [hut.1]
            show (if ([it.1] : List ℕ) = [it.1] then
                st.hits.data [it.1]
                  + (st.calc_seq_hits_misses_fas pred target it.2).1.data []
              else st.hits.data [it.1]) = _
            rw [if_pos rfl]
          · rw [hut.2.1]
            show (if ([it.1] : List ℕ) = [it.1] then
                st.misses.data [it.1]
                  + (st.calc_seq_hits_misses_fas pred target it.2).2.1.data []
              else st.misses.data [it.1]) = _
            rw [if_pos rfl]
          · rw [hut.2.2]
            show (if ([it.1] : List ℕ) = [it.1] then
                st.fas.data [it.1]
                  + (st.calc_seq_hits_misses_fas pred target it.2).2.2.data []
              else st.fas.data [it.1]) = _
            rw [if_pos rfl]
        · have hne : ([it.1] : List ℕ) ≠ [hd.1] := by
            intro h2
            have hfst : it.1 = hd.1 := by simpa using h2
            exact hnd.1 (hfst ▸ List.mem_map_of_mem Prod.fst hr)
          obtain ⟨hm1, hm2, hm3⟩ := hmem it hr
          refine ⟨?_, ?_, ?_⟩
          · rw [hm1]
            show (if ([it.1] : List ℕ) = [hd.1] then
                st.hits.data [hd.1]
                  + (st.calc_seq_hits_misses_fas pred target hd.2).1.data []
              else st.hits.data [it.1])
                + (st.calc_seq_hits_misses_fas pred target it.2).1.data [] = _
            rw [if_neg hne]
          · rw [hm2]
            show (if ([it.1] : List ℕ) = [hd.1] then
                st.misses.data [hd.1]
                  + (st.calc_seq_hits_misses_fas pred target hd.2).2.1.data []
              else st.misses.data [it.1])
                + (st.calc_seq_hits_misses_fas pred target it.2).2.1.data [] = _
            rw [if_neg hne]
          · rw [hm3]
            show (if ([it.1] : List ℕ) = [hd.1] then
                st.fas.data [hd.1]
                  + (st.calc_seq_hits_misses_fas pred target hd.2).2.2.data []
              else st.fas.data [it.1])
                + (st.calc_seq_hits_misses_fas pred target it.2).2.2.data [] = _
            rw [if_neg hne]
      · intro idx hidx
        have hne := hidx hd (List.mem_cons_self hd rest)
        obtain ⟨hu1, hu2, hu3⟩ := huntouched idx
          (fun it2 hit2 => hidx it2 (List.mem_cons_of_mem hd hit2))
        refine ⟨?_, ?_, ?_⟩
        · rw [hu1]
          show (if idx = [hd.1] then
              st.hits.data [hd.1]
                + (st.calc_seq_hits_misses_fas pred target hd.2).1.data []
            else st.hits.data idx) = _
          rw [if_neg hne]
        · rw [hu2]
          show (if idx = [hd.1] then
              st.misses.data [hd.1]
                + (st.calc_seq_hits_misses_fas pred target hd.2).2.1.data []
            else st.misses.data idx) = _
          rw [if_neg hne]
        · rw [hu3]
          show (if idx = [hd.1] then
              st.fas.data [hd.1]
                + (st.calc_seq_hits_misses_fas pred target hd.2).2.2.data []
            else st.fas.data idx) = _
          rw [if_neg hne]

/-- Reading entry `i < n` off a map over `range n`. -/
theorem getD_map_range {β : Type} (n i : ℕ) (hi : i < n) (g : ℕ → β)
    (d : β) : (((List.range n).map g).getD i d) = g i := by
  rw [List.getD_eq_getD_get?, List.get?_map, List.get?_range hi]
  rfl

/-- A left fold accumulating `+ f x` from `a0` is `a0` plus the sum of
the mapped list. -/
theorem foldl_add_eq_sum (l : List ℕ) (f : ℕ → ℝ) :
    ∀ a0 : ℝ, l.foldl (fun a x => a + f x) a0 = a0 + (l.map f).sum := by
  induction l with
  | nil => intro a0; simp
  | cons x l ih =>
      intro a0
      rw [List.foldl_cons, ih (a0 + f x), List.map_cons, List.sum_cons]
      ring

/-- Mapping with `mapM` over `Except` with an everywhere-successful function. -/
theorem mapM_ok {α β ε : Type} (l : List α) (F : α → Except ε β)
    (g : α → β) (h : ∀ a ∈ l, F a = .ok (g a)) :
    l.mapM F = .ok (l.map g) := by
  induction l with
  | nil => rfl
  | cons a l ih =>
      rw [List.mapM_cons, h a (List.mem_cons_self a l),
        ih (fun x hx => h x (List.mem_cons_of_mem a hx))]
      rfl

/-- One metric column of the score section, in the non-kept-dimension
branch with a supported metric, a nonempty threshold list and a
supported mode: the per-threshold values and the threshold average. -/
theorem metricScoreColumn_ok (s : SEVIRSkillScore) (m : String)
    (f : ℝ → ℝ → ℝ → ℝ → ℝ) (hf : metricsDict m = some f)
    (hk : s.keep_seq_len_dim = false)
    (hthr : s.threshold_list ≠ [])
    (hmode : s.mode = "0" ∨ s.mode = "1" ∨ s.mode = "2") :
    s.metricScoreColumn m = .ok
      ((List.range s.threshold_list.length).map (fun i =>
        MetricVal.num ((metricScores f s.hits s.misses s.fas s.eps).data [i])),
       MetricVal.num (((List.range s.threshold_list.length).foldl
          (fun a i =>
            a + (metricScores f s.hits s.misses s.fas s.eps).data [i]) 0)
        / (s.threshold_list.length : ℝ))) := by
  unfold SEVIRSkillScore.metricScoreColumn
  rw [hf]
  simp only [hk, Bool.false_eq_true, if_false]
  rw [if_neg (by simpa using hthr), if_pos hmode]

/-- One metric column in the same branch, but with a mode outside
{"0","1","2"}: the aggregation branch raises `NotImplementedError`. -/
theorem metricScoreColumn_bad_mode (s : SEVIRSkillScore) (m : String)
    (f : ℝ → ℝ → ℝ → ℝ → ℝ) (hf : metricsDict m = some f)
    (hk : s.keep_seq_len_dim = false)
    (hthr : s.threshold_list ≠ [])
    (hmode : ¬(s.mode = "0" ∨ s.mode = "1" ∨ s.mode = "2")) :
    s.metricScoreColumn m = .error .notImplementedError := by
  unfold SEVIRSkillScore.metricScoreColumn
  rw [hf]
  simp only [hk, Bool.false_eq_true, if_false]
  rw [if_neg (by simpa using hthr), if_neg hmode]

/-- The score section of `compute` in the non-kept-dimension branch
with supported metrics, a nonempty threshold list and a supported mode:
one entry per configured threshold (in order) holding every configured
metric's per-threshold score, then an `"avg"` entry holding the
threshold average of each metric. -/
theorem computeScores_mode0 (s : SEVIRSkillScore)
    (hk : s.keep_seq_len_dim = false)
    (hthr : s.threshold_list ≠ [])
    (hmode : s.mode = "0" ∨ s.mode = "1" ∨ s.mode = "2")
    (F : String → ℝ → ℝ → ℝ → ℝ → ℝ)
    (hF : ∀ m ∈ s.metrics_list, metricsDict m = some (F m)) :
    s.computeScores = .ok
      (s.threshold_list.enum.map (fun it =>
        (RetKey.thr it.2, s.metrics_list.map (fun m =>
          (m, MetricVal.num
            ((metricScores (F m) s.hits s.misses s.fas s.eps).data [it.1])))))
      ++ [(RetKey.avg, s.metrics_list.map (fun m =>
          (m, MetricVal.num (((List.range s.threshold_list.length).foldl
            (fun a i =>
              a + (metricScores (F m) s.hits s.misses s.fas s.eps).data [i]) 0)
            / (s.threshold_list.length : ℝ)))))]) := by
  unfold SEVIRSkillScore.computeScores
  rw [mapM_ok s.metrics_list _
    (fun m =>
      (m, ((List.range s.threshold_list.length).map (fun i =>
        MetricVal.num ((metricScores (F m) s.hits s.misses s.fas s.eps).data [i])),
       MetricVal.num (((List.range s.threshold_list.length).foldl
          (fun a i =>
            a + (metricScores (F m) s.hits s.misses s.fas s.eps).data [i]) 0)
        / (s.threshold_list.length : ℝ)))))
    (fun m hm => by
      rw [metricScoreColumn_ok s m (F m) (hF m hm) hk hthr hmode]
      rfl)]
  show Except.ok _ = Except.ok _
  congr 1
  congr 1
  · apply List.map_congr_left
    intro it hit
    have hlt : it.1 < s.threshold_list.length := by
      obtain ⟨i, x⟩ := it
      have := (List.mem_enumFrom hit).2.1
      simpa using this
    congr 1
    rw [List.map_map]
    apply List.map_congr_left
    intro m hm
    simp only [Function.comp]
    rw [getD_map_range _ _ hlt]
  · rw [List.map_map]
    rfl

/-- The pair `(i, l[i])` is an entry of `l.enum`. -/
theorem mem_enum_of_lt {α : Type} (l : List α) (i : ℕ) (hi : i < l.length) :
    (i, l[i]) ∈ l.enum := by
  have h1 := List.getElem_enum l i (by simpa using hi)
  exact h1 ▸ List.getElem_mem _

/-- Every entry of the per-threshold batch-count tensors is
nonnegative (each is an int32-cast sum of products of 0/1
indicators). -/
theorem calc_data_nonneg (st : SEVIRSkillScore)
    (pred target : PTensor PFloat) (threshold : ℤ) (idx : List ℕ) :
    0 ≤ (st.calc_seq_hits_misses_fas pred target threshold).1.data idx ∧
    0 ≤ (st.calc_seq_hits_misses_fas pred target threshold).2.1.data idx ∧
    0 ≤ (st.calc_seq_hits_misses_fas pred target threshold).2.2.data idx := by
  have hmem := fun i => threshold_data_mem_zero_one target pred (threshold : ℚ) i
  refine ⟨?_, ?_, ?_⟩
  · show 0 ≤ toInt32 ((List.map (fun ridx =>
        (_threshold target pred (threshold : ℚ)).1.data
          (mergeIdx st.hits_misses_fas_reduce_dims target.shape.length 0 ridx idx)
        * (_threshold target pred (threshold : ℚ)).2.data
          (mergeIdx st.hits_misses_fas_reduce_dims target.shape.length 0 ridx idx))
      (shapeIndices (((List.range target.shape.length).filter
        (· ∈ st.hits_misses_fas_reduce_dims)).map
          (fun j => target.shape.getD j 0)))).sum)
    rw [sum_map_indicator_mul _ _ _ (fun r _ => (hmem _).1) (fun r _ => (hmem _).2),
      toInt32_natCast]
    positivity
  · show 0 ≤ toInt32 ((List.map (fun ridx =>
        (_threshold target pred (threshold : ℚ)).1.data
          (mergeIdx st.hits_misses_fas_reduce_dims target.shape.length 0 ridx idx)
        * (1 - (_threshold target pred (threshold : ℚ)).2.data
          (mergeIdx st.hits_misses_fas_reduce_dims target.shape.length 0 ridx idx)))
      (shapeIndices (((List.range target.shape.length).filter
        (· ∈ st.hits_misses_fas_reduce_dims)).map
          (fun j => target.shape.getD j 0)))).sum)
    rw [sum_map_indicator_mul _ _ _ (fun r _ => (hmem _).1)
      (fun r _ => by rcases (hmem (mergeIdx st.hits_misses_fas_reduce_dims
        target.shape.length 0 r idx)).2 with h | h <;> rw [h] <;> norm_num),
      toInt32_natCast]
    positivity
  · show 0 ≤ toInt32 ((List.map (fun ridx =>
        (1 - (_threshold target pred (threshold : ℚ)).1.data
          (mergeIdx st.hits_misses_fas_reduce_dims target.shape.length 0 ridx idx))
        * (_threshold target pred (threshold : ℚ)).2.data
          (mergeIdx st.hits_misses_fas_reduce_dims target.shape.length 0 ridx idx))
      (shapeIndices (((List.range target.shape.length).filter
        (· ∈ st.hits_misses_fas_reduce_dims)).map
          (fun j => target.shape.getD j 0)))).sum)
    rw [sum_map_indicator_mul _ _ _
      (fun r _ => by rcases (hmem (mergeIdx st.hits_misses_fas_reduce_dims
        target.shape.length 0 r idx)).1 with h | h <;> rw [h] <;> norm_num)
      (fun r _ => (hmem _).2),
      toInt32_natCast]
    positivity

/-- The method `preprocess` with the default "sevir" type applies the external
back-normalization to both tensors. -/
theorem preprocess_sevir (s : SEVIRSkillScore)
    (hpt : s.preprocess_type = "sevir") (pred target : PTensor PFloat) :
    s.preprocess pred target
      = .ok (s.process_data_dict_back pred, s.process_data_dict_back target) := by
  unfold SEVIRSkillScore.preprocess
  rw [if_pos hpt]

/-- The method `compute` in mode-"0"-style configurations: the call succeeds, its
updated state adds exactly the per-threshold batch counts of the
preprocessed tensors to the previous counts (leaving every other entry,
every shape and every configuration field unchanged), and the returned
mapping is built from the updated counts: per-threshold metric values
and their threshold averages. -/
theorem compute_mode0 (s : SEVIRSkillScore)
    (hk : s.keep_seq_len_dim = false)
    (hpt : s.preprocess_type = "sevir")
    (hthr : s.threshold_list ≠ [])
    (hmode : s.mode = "0" ∨ s.mode = "1" ∨ s.mode = "2")
    (F : String → ℝ → ℝ → ℝ → ℝ → ℝ)
    (hF : ∀ m ∈ s.metrics_list, metricsDict m = some (F m))
    (pred target : PTensor PFloat)
    (hlen : (s.process_data_dict_back target).shape.length
      ≤ s.layout.toList.length) :
    ∃ s2,
      s.compute pred target = .ok (s2,
        s.threshold_list.enum.map (fun it =>
          (RetKey.thr it.2, s.metrics_list.map (fun m =>
            (m, MetricVal.num
              ((metricScores (F m) s2.hits s2.misses s2.fas s.eps).data
                [it.1])))))
        ++ [(RetKey.avg, s.metrics_list.map (fun m =>
            (m, MetricVal.num (((List.range s.threshold_list.length).foldl
              (fun a i =>
                a + (metricScores (F m) s2.hits s2.misses s2.fas s.eps).data
                  [i]) 0)
              / (s.threshold_list.length : ℝ)))))]) ∧
      s2.layout = s.layout ∧
      s2.preprocess_type = s.preprocess_type ∧
      s2.threshold_list = s.threshold_list ∧
      s2.metrics_list = s.metrics_list ∧
      s2.eps = s.eps ∧
      s2.mode = s.mode ∧
      s2.seq_len = s.seq_len ∧
      s2.keep_seq_len_dim = s.keep_seq_len_dim ∧
      s2.process_data_dict_back = s.process_data_dict_back ∧
      s2.hits.shape = s.hits.shape ∧
      s2.misses.shape = s.misses.shape ∧
      s2.fas.shape = s.fas.shape ∧
      (∀ it ∈ s.threshold_list.enum,
        s2.hits.data [it.1] = s.hits.data [it.1]
            + (s.calc_seq_hits_misses_fas (s.process_data_dict_back pred)
                (s.process_data_dict_back target) it.2).1.data []
        ∧ s2.misses.data [it.1] = s.misses.data [it.1]
            + (s.calc_seq_hits_misses_fas (s.process_data_dict_back pred)
                (s.process_data_dict_back target) it.2).2.1.data []
        ∧ s2.fas.data [it.1] = s.fas.data [it.1]
            + (s.calc_seq_hits_misses_fas (s.process_data_dict_back pred)
                (s.process_data_dict_back target) it.2).2.2.data []) ∧
      (∀ idx : List ℕ, (∀ it ∈ s.threshold_list.enum, idx ≠ [it.1]) →
        s2.hits.data idx = s.hits.data idx
        ∧ s2.misses.data idx = s.misses.data idx
        ∧ s2.fas.data idx = s.fas.data idx) := by
  obtain ⟨s2, hfold, hc1, hc2, hc3, hc4, hc5, hc6, hc7, hc8, hc9,
      hs1, hs2, hs3, hmem, hunt⟩ :=
    accumulate_fold (s.process_data_dict_back pred)
      (s.process_data_dict_back target) s.threshold_list.enum s hk hlen
      (by rw [List.enum_map_fst]; exact List.nodup_range _)
  have hacc : s.accumulate (s.process_data_dict_back pred)
      (s.process_data_dict_back target) = .ok s2 := hfold
  have hscores := computeScores_mode0 s2 (hc8.trans hk)
    (hc3 ▸ hthr) (hc6 ▸ hmode) F (fun m hm => hF m (hc4 ▸ hm))
  simp only [hc3, hc4, hc5] at hscores
  refine ⟨s2, ?_, hc1, hc2, hc3, hc4, hc5, hc6, hc7, hc8, hc9,
    hs1, hs2, hs3, hmem, hunt⟩
  unfold SEVIRSkillScore.compute
  rw [preprocess_sevir s hpt pred target]
  show (s.accumulate (s.process_data_dict_back pred)
      (s.process_data_dict_back target)).bind _ = _
  rw [hacc]
  show (s2.computeScores).bind _ = _
  rw [hscores]
  rfl

/-- The score section with an unsupported mode (and a supported first
metric, nonempty threshold list, non-kept sequence dim): the first
aggregation branch reached raises `NotImplementedError`. -/
theorem computeScores_bad_mode (s : SEVIRSkillScore)
    (hk : s.keep_seq_len_dim = false)
    (hthr : s.threshold_list ≠ [])
    (hmets : s.metrics_list ≠ [])
    (hms : ∀ m ∈ s.metrics_list, (metricsDict m).isSome)
    (hmode : ¬(s.mode = "0" ∨ s.mode = "1" ∨ s.mode = "2")) :
    s.computeScores = .error .notImplementedError := by
  obtain ⟨m0, ms, hml⟩ : ∃ m0 ms, s.metrics_list = m0 :: ms := by
    cases hml : s.metrics_list with
    | nil => exact absurd hml hmets
    | cons a l => exact ⟨a, l, rfl⟩
  obtain ⟨f, hf⟩ := Option.isSome_iff_exists.mp
    (hms m0 (by rw [hml]; exact List.mem_cons_self _ _))
  have hcol := metricScoreColumn_bad_mode s m0 f hf hk hthr hmode
  unfold SEVIRSkillScore.computeScores
  rw [hml, List.mapM_cons]
  simp only [hcol]
  rfl

/-- C7 — unsupported modes fail immediately with NotImplementedError:
the constructor rejects every mode outside {"0","1","2"}, and a
`compute` call whose score section reaches the aggregation branch with
such a mode (a configuration with a non-kept sequence dim, the "sevir"
preprocess type, nonempty threshold and metric lists, and supported
metric names) also raises NotImplementedError; in both cases the error
is the immediate result of the call, with no retry. -/
theorem unsupported_mode_errors (mode : String)
    (hmode : mode ≠ "0" ∧ mode ≠ "1" ∧ mode ≠ "2") :
    (∀ layout seq_len ptype thresholds metrics eps pb,
      SEVIRSkillScore.init layout mode seq_len ptype thresholds metrics
        eps pb = .error .notImplementedError) ∧
    (∀ s : SEVIRSkillScore, s.mode = mode →
      s.keep_seq_len_dim = false → s.preprocess_type = "sevir" →
      s.threshold_list ≠ [] → s.metrics_list ≠ [] →
      (∀ m ∈ s.metrics_list, (metricsDict m).isSome) →
      ∀ pred target : PTensor PFloat,
        (s.process_data_dict_back target).shape.length
            ≤ s.layout.toList.length →
        s.compute pred target = .error .notImplementedError) := by
  constructor
  · intro layout seq_len ptype thresholds metrics eps pb
    simp only [SEVIRSkillScore.init]
    rw [if_neg hmode.1,
      if_neg (by rw [not_or]; exact ⟨hmode.2.1, hmode.2.2⟩)]
  · intro s hsm hk hpt hthr hmets hms pred target hlen
    have hmode' : ¬(s.mode = "0" ∨ s.mode = "1" ∨ s.mode = "2") := by
      rw [hsm]
      rintro (h | h | h)
      · exact hmode.1 h
      · exact hmode.2.1 h
      · exact hmode.2.2 h
    obtain ⟨s2, hfold, hc1, hc2, hc3, hc4, hc5, hc6, hc7, hc8, hc9,
        hs1, hs2, hs3, hmem, hunt⟩ :=
      accumulate_fold (s.process_data_dict_back pred)
        (s.process_data_dict_back target) s.threshold_list.enum s hk hlen
        (by rw [List.enum_map_fst]; exact List.nodup_range _)
    have hacc : s.accumulate (s.process_data_dict_back pred)
        (s.process_data_dict_back target) = .ok s2 := hfold
    have hbad := computeScores_bad_mode s2 (hc8.trans hk) (hc3 ▸ hthr)
      (hc4 ▸ hmets) (fun m hm => hms m (hc4 ▸ hm))
      (by rw [hc6]; exact hmode')
    unfold SEVIRSkillScore.compute
    rw [preprocess_sevir s hpt pred target]
    show (s.accumulate (s.process_data_dict_back pred)
        (s.process_data_dict_back target)).bind _ = _
    rw [hacc]
    show (s2.computeScores).bind _ = _
    rw [hbad]
    rfl

/-- Witness for C7 at the concrete unsupported mode "3": the
constructor (with the default options) and a compute call on a
mode-"3" configuration both fail with NotImplementedError. -/
theorem unsupported_mode_errors_witness :
    SEVIRSkillScore.init "NHWT" "3" none "sevir"
        [16, 74, 133, 160, 181, 219] ["csi", "bias", "sucr", "pod"]
        (1 / 10000) id = .error .notImplementedError ∧
    SEVIRSkillScore.compute
      ⟨"NHWT", "sevir", [74], ["csi"], 1 / 10000, "3", none, false,
        paddleZeros [1], paddleZeros [1], paddleZeros [1], id⟩
      ⟨[1, 1, 1, 2], fun _ => .val 80⟩ ⟨[1, 1, 1, 2], fun _ => .val 100⟩
      = .error .notImplementedError := by
  have h := unsupported_mode_errors "3" ⟨by decide, by decide, by decide⟩
  refine ⟨h.1 "NHWT" none "sevir" [16, 74, 133, 160, 181, 219]
    ["csi", "bias", "sucr", "pod"] (1 / 10000) id, ?_⟩
  exact h.2 _ rfl rfl rfl (by decide) (by decide)
    (by
      intro m hm
      simp only [List.mem_singleton] at hm
      subst hm
      simp [metricsDict])
    _ _ (by decide)

/-- C6 counterexample — a mode-"1" instance built by the constructor:
its first `compute` call raises a shape error instead of adding the
per-threshold batch counts (the flat state created by `__init__` cannot
receive the per-step count vectors), so not every instance accumulates
on every call. -/
theorem compute_mode1_accumulation_fails :
    (SEVIRSkillScore.init "NHWT" "1" (some 3) "sevir"
        [16, 74, 133, 160, 181, 219] ["csi", "bias", "sucr", "pod"]
        (1 / 10000) id).bind
      (fun s => s.compute ⟨[1, 1, 1, 3], fun _ => .val 0⟩
        ⟨[1, 1, 1, 3], fun _ => .val 0⟩) = .error .valueError := by
  rfl

/-- C6 (amended to mode "0", where the accumulation loop is
well-formed) — every `compute` call succeeds and adds exactly the
per-threshold batch counts to the stored hits/misses/fas; the counts
never decrease, all other entries and the state shapes are unchanged,
and the returned score mapping is recomputed from the updated
accumulated counts (it is the score section evaluated on the updated
state). -/
theorem compute_accumulates_mode0 (s : SEVIRSkillScore)
    (h0 : s.mode = "0") (hk : s.keep_seq_len_dim = false)
    (hpt : s.preprocess_type = "sevir")
    (hthr : s.threshold_list ≠ [])
    (hms : ∀ m ∈ s.metrics_list, (metricsDict m).isSome)
    (pred target : PTensor PFloat)
    (hlen : (s.process_data_dict_back target).shape.length
      ≤ s.layout.toList.length) :
    ∃ s2 ret,
      s.compute pred target = .ok (s2, ret) ∧
      (∀ i, i < s.threshold_list.length →
        (s2.hits.data [i] = s.hits.data [i]
            + (s.calc_seq_hits_misses_fas (s.process_data_dict_back pred)
                (s.process_data_dict_back target)
                (s.threshold_list.getD i 0)).1.data []
          ∧ s2.misses.data [i] = s.misses.data [i]
              + (s.calc_seq_hits_misses_fas (s.process_data_dict_back pred)
                  (s.process_data_dict_back target)
                  (s.threshold_list.getD i 0)).2.1.data []
          ∧ s2.fas.data [i] = s.fas.data [i]
              + (s.calc_seq_hits_misses_fas (s.process_data_dict_back pred)
                  (s.process_data_dict_back target)
                  (s.threshold_list.getD i 0)).2.2.data [])
        ∧ s.hits.data [i] ≤ s2.hits.data [i]
        ∧ s.misses.data [i] ≤ s2.misses.data [i]
        ∧ s.fas.data [i] ≤ s2.fas.data [i]) ∧
      (∀ idx : List ℕ, (∀ i, i < s.threshold_list.length → idx ≠ [i]) →
        s2.hits.data idx = s.hits.data idx
        ∧ s2.misses.data idx = s.misses.data idx
        ∧ s2.fas.data idx = s.fas.data idx) ∧
      s2.hits.shape = s.hits.shape ∧
      s2.misses.shape = s.misses.shape ∧
      s2.fas.shape = s.fas.shape ∧
      s2.computeScores = .ok ret := by
  have hF : ∀ m ∈ s.metrics_list,
      metricsDict m = some ((metricsDict m).getD SEVIRSkillScore.pod) := by
    intro m hm
    obtain ⟨f, hf⟩ := Option.isSome_iff_exists.mp (hms m hm)
    rw [hf]
    rfl
  obtain ⟨s2, hcomp, hc1, hc2, hc3, hc4, hc5, hc6, hc7, hc8, hc9,
      hs1, hs2, hs3, hmem, hunt⟩ :=
    compute_mode0 s hk hpt hthr (Or.inl h0)
      (fun m => (metricsDict m).getD SEVIRSkillScore.pod) hF pred target hlen
  have hscores := computeScores_mode0 s2 (hc8.trans hk) (hc3 ▸ hthr)
    (hc6 ▸ Or.inl h0)
    (fun m => (metricsDict m).getD SEVIRSkillScore.pod)
    (fun m hm => hF m (hc4 ▸ hm))
  simp only [hc3, hc4, hc5] at hscores
  refine ⟨s2, _, hcomp, ?_, ?_, hs1, hs2, hs3, hscores⟩
  · intro i hi
    have hin := mem_enum_of_lt s.threshold_list i hi
    have hgd : s.threshold_list[i] = s.threshold_list.getD i 0 :=
      (List.getD_eq_getElem s.threshold_list 0 hi).symm
    obtain ⟨hm1, hm2, hm3⟩ := hmem (i, s.threshold_list[i]) hin
    rw [hgd] at hm1 hm2 hm3
    have hnn := calc_data_nonneg s (s.process_data_dict_back pred)
      (s.process_data_dict_back target) (s.threshold_list.getD i 0) []
    refine ⟨⟨hm1, hm2, hm3⟩, ?_, ?_, ?_⟩
    · rw [hm1]; exact le_add_of_nonneg_right hnn.1
    · rw [hm2]; exact le_add_of_nonneg_right hnn.2.1
    · rw [hm3]; exact le_add_of_nonneg_right hnn.2.2
  · intro idx hidx
    exact hunt idx (fun it hit => hidx it.1 (by
      obtain ⟨i, x⟩ := it
      have := (List.mem_enumFrom hit).2.1
      simpa using this))

/-- Witness for C6 on a concrete mode-"0" instance with two thresholds
and two metrics. -/
theorem compute_accumulates_mode0_witness :
    let s : SEVIRSkillScore :=
      ⟨"NHWT", "sevir", [74, 133], ["csi", "pod"], 1 / 10000, "0", none,
        false, paddleZeros [2], paddleZeros [2], paddleZeros [2], id⟩
    let pred : PTensor PFloat := ⟨[1, 1, 1, 2], fun _ => .val 80⟩
    let target : PTensor PFloat :=
      ⟨[1, 1, 1, 2], fun idx => if idx = [0, 0, 0, 0] then .val 100 else .val 50⟩
    ∃ s2 ret,
      s.compute pred target = .ok (s2, ret) ∧
      (∀ i, i < s.threshold_list.length →
        (s2.hits.data [i] = s.hits.data [i]
            + (s.calc_seq_hits_misses_fas (s.process_data_dict_back pred)
                (s.process_data_dict_back target)
                (s.threshold_list.getD i 0)).1.data []
          ∧ s2.misses.data [i] = s.misses.data [i]
              + (s.calc_seq_hits_misses_fas (s.process_data_dict_back pred)
                  (s.process_data_dict_back target)
                  (s.threshold_list.getD i 0)).2.1.data []
          ∧ s2.fas.data [i] = s.fas.data [i]
              + (s.calc_seq_hits_misses_fas (s.process_data_dict_back pred)
                  (s.process_data_dict_back target)
                  (s.threshold_list.getD i 0)).2.2.data [])
        ∧ s.hits.data [i] ≤ s2.hits.data [i]
        ∧ s.misses.data [i] ≤ s2.misses.data [i]
        ∧ s.fas.data [i] ≤ s2.fas.data [i]) ∧
      (∀ idx : List ℕ, (∀ i, i < s.threshold_list.length → idx ≠ [i]) →
        s2.hits.data idx = s.hits.data idx
        ∧ s2.misses.data idx = s.misses.data idx
        ∧ s2.fas.data idx = s.fas.data idx) ∧
      s2.hits.shape = s.hits.shape ∧
      s2.misses.shape = s.misses.shape ∧
      s2.fas.shape = s.fas.shape ∧
      s2.computeScores = .ok ret := by
  intro s pred target
  exact compute_accumulates_mode0 s rfl rfl rfl (by decide)
    (by
      intro m hm
      simp only [List.mem_cons, List.not_mem_nil, or_false] at hm
      rcases hm with hm | hm <;> subst hm <;> simp [metricsDict])
    pred target (by decide)

/-- C8 counterexample — a valid mode-"2" instance built by the
constructor: its `compute` call on a two-step batch raises a shape
error, so it does not return the claimed threshold→metric→value
mapping. -/
theorem compute_mode2_no_mapping :
    (SEVIRSkillScore.init "NHWT" "2" (some 2) "sevir"
        [16, 74, 133, 160, 181, 219] ["csi", "bias", "sucr", "pod"]
        (1 / 10000) id).bind
      (fun s => s.compute ⟨[1, 1, 1, 2], fun _ => .val 10⟩
        ⟨[1, 1, 1, 2], fun _ => .val 20⟩) = .error .valueError := by
  rfl

/-- C8 (amended to mode "0" with supported metric names) — `compute`
returns a mapping with one entry per configured threshold, in order,
plus an `"avg"` entry; every entry maps every configured metric name to
a value, and the `"avg"` value of each metric is the arithmetic mean of
that metric's per-threshold scores over the threshold list. -/
theorem compute_mapping_mode0 (s : SEVIRSkillScore)
    (h0 : s.mode = "0") (hk : s.keep_seq_len_dim = false)
    (hpt : s.preprocess_type = "sevir")
    (hthr : s.threshold_list ≠ [])
    (hms : ∀ m ∈ s.metrics_list, (metricsDict m).isSome)
    (pred target : PTensor PFloat)
    (hlen : (s.process_data_dict_back target).shape.length
      ≤ s.layout.toList.length) :
    ∃ (s2 : SEVIRSkillScore) (ret : SEVIRRet)
      (score : String → ℕ → ℝ) (avgv : String → ℝ),
      s.compute pred target = .ok (s2, ret) ∧
      ret.map Prod.fst = s.threshold_list.map RetKey.thr ++ [RetKey.avg] ∧
      (∀ e ∈ ret, e.2.map Prod.fst = s.metrics_list) ∧
      ret = s.threshold_list.enum.map (fun it =>
          (RetKey.thr it.2, s.metrics_list.map (fun m =>
            (m, MetricVal.num (score m it.1)))))
        ++ [(RetKey.avg, s.metrics_list.map (fun m =>
            (m, MetricVal.num (avgv m))))] ∧
      (∀ m : String, avgv m
        = ((List.range s.threshold_list.length).map (score m)).sum
            / (s.threshold_list.length : ℝ)) := by
  have hF : ∀ m ∈ s.metrics_list,
      metricsDict m = some ((metricsDict m).getD SEVIRSkillScore.pod) := by
    intro m hm
    obtain ⟨f, hf⟩ := Option.isSome_iff_exists.mp (hms m hm)
    rw [hf]
    rfl
  obtain ⟨s2, hcomp, _, _, _, _, _, _, _, _, _, _, _, _, _, _⟩ :=
    compute_mode0 s hk hpt hthr (Or.inl h0)
      (fun m => (metricsDict m).getD SEVIRSkillScore.pod) hF pred target hlen
  refine ⟨s2, _,
    (fun m i => (metricScores ((metricsDict m).getD SEVIRSkillScore.pod)
      s2.hits s2.misses s2.fas s.eps).data [i]),
    (fun m => ((List.range s.threshold_list.length).foldl
      (fun a i =>
        a + (metricScores ((metricsDict m).getD SEVIRSkillScore.pod)
          s2.hits s2.misses s2.fas s.eps).data [i]) 0)
      / (s.threshold_list.length : ℝ)),
    hcomp, ?_, ?_, rfl, ?_⟩
  · rw [List.map_append, List.map_map]
    congr 1
    have : (Prod.fst ∘ fun it : ℕ × ℤ =>
        (RetKey.thr it.2, s.metrics_list.map (fun m =>
          (m, MetricVal.num ((metricScores
            ((metricsDict m).getD SEVIRSkillScore.pod)
            s2.hits s2.misses s2.fas s.eps).data [it.1])))))
        = RetKey.thr ∘ Prod.snd := by
      funext it
      rfl
    rw [this, ← List.map_map, List.enum_map_snd]
  · intro e he
    rcases List.mem_append.mp he with h | h
    · obtain ⟨it, _, rfl⟩ := List.mem_map.mp h
      rw [List.map_map]
      exact (List.map_congr_left (fun a _ => rfl)).trans
        (List.map_id s.metrics_list)
    · rw [List.mem_singleton.mp h]
      rw [List.map_map]
      exact (List.map_congr_left (fun a _ => rfl)).trans
        (List.map_id s.metrics_list)
  · intro m
    show ((List.range s.threshold_list.length).foldl
        (fun a i => a + (metricScores ((metricsDict m).getD
          SEVIRSkillScore.pod) s2.hits s2.misses s2.fas s.eps).data [i]) 0)
        / (s.threshold_list.length : ℝ)
      = ((List.range s.threshold_list.length).map
          (fun i => (metricScores ((metricsDict m).getD
            SEVIRSkillScore.pod) s2.hits s2.misses s2.fas s.eps).data [i])).sum
        / (s.threshold_list.length : ℝ)
    rw [foldl_add_eq_sum, zero_add]

/-- Witness for C8 on a concrete mode-"0" instance with three
thresholds and two metrics. -/
theorem compute_mapping_mode0_witness :
    let s : SEVIRSkillScore :=
      ⟨"NHWT", "sevir", [16, 74, 133], ["pod", "bias"], 1 / 10000, "0",
        none, false, paddleZeros [3], paddleZeros [3], paddleZeros [3], id⟩
    let pred : PTensor PFloat := ⟨[1, 2, 2, 1], fun _ => .val 90⟩
    let target : PTensor PFloat :=
      ⟨[1, 2, 2, 1], fun idx => if idx = [0, 0, 0, 0] then .val 140 else .val 20⟩
    ∃ (s2 : SEVIRSkillScore) (ret : SEVIRRet)
      (score : String → ℕ → ℝ) (avgv : String → ℝ),
      s.compute pred target = .ok (s2, ret) ∧
      ret.map Prod.fst = s.threshold_list.map RetKey.thr ++ [RetKey.avg] ∧
      (∀ e ∈ ret, e.2.map Prod.fst = s.metrics_list) ∧
      ret = s.threshold_list.enum.map (fun it =>
          (RetKey.thr it.2, s.metrics_list.map (fun m =>
            (m, MetricVal.num (score m it.1)))))
        ++ [(RetKey.avg, s.metrics_list.map (fun m =>
            (m, MetricVal.num (avgv m))))] ∧
      (∀ m : String, avgv m
        = ((List.range s.threshold_list.length).map (score m)).sum
            / (s.threshold_list.length : ℝ)) := by
  intro s pred target
  exact compute_mapping_mode0 s rfl rfl rfl (by decide)
    (by
      intro m hm
      simp only [List.mem_cons, List.not_mem_nil, or_false] at hm
      rcases hm with hm | hm <;> subst hm <;> simp [metricsDict])
    pred target (by decide)
